import Mathlib

/-!
# Verification of the metre partial-configuration engine

A shallow embedding of the metre configuration-loading library
(crates `metre` and `metre-macros`).  The derive macro in
`metre-macros/src/config.rs` generates, for every configuration struct, a
deep-partial mirror together with the operations `defaults`, `merge`,
`is_empty`, `list_missing_properties`, `from_env_with_provider_and_optional_prefix`
and `from_partial`.  We embed configuration shapes as first-class data
(`Shape` below, the static field table the macro reads from the struct
definition) and the generated operations as recursive functions over shapes
and untyped mirror values (`PValue`).

Scalar payloads are embedded as the untyped `Value` type; Rust's static
typing is recovered where needed through the structural `matches` relation.
-/

namespace Metre

/-- Untyped scalar payload of a leaf configuration field.  Enough structure
for the scalar types exercised by the engine: integers (e.g. `u16`),
strings, and vectors (for the `append_vec` merge helper and
`comma_separated` parse helper). -/
inductive Value where
  | nat (n : Nat)
  | str (s : String)
  | vlist (xs : List Value)

/-- Error produced when merging two partial configurations
(`metre/src/error.rs`, `MergeError`). -/
structure MergeError where
  field : String
  message : String
deriving Repr, DecidableEq

/-- Error parsing a value from an environment variable
(`metre/src/error.rs`, `FromEnvError`). -/
structure FromEnvError where
  key : String
  field : String
  message : String
deriving Repr, DecidableEq

/-- Error produced when creating a config from a partial config
(`metre/src/error.rs`, `FromPartialError`). -/
structure FromPartialError where
  missing_properties : List String
deriving Repr, DecidableEq

/-- Scalar type of a leaf field; determines the default `FromStr`-based
environment parsing rule. -/
inductive ScalarTy where
  | tU16
  | tStr
deriving Repr, DecidableEq

/-- Per-field merge policy: the default (`metre::util::merge_flat` for
leaves / `metre::util::merge_nested` for nested fields), the library's
`metre::merge::append_vec` helper, or a user merge function that always
fails with a fixed message (modelling an arbitrary failing custom merge). -/
inductive MergePolicy where
  | mdefault
  | mappend
  | mfail (msg : String)
deriving Repr, DecidableEq

/-- Per-field environment parse policy: the default `FromStr` rule of the
scalar type, the library's `metre::parse::comma_separated::<u16>` helper, a
user function returning a fixed `Ok` value, or a user function that always
fails with a fixed message. -/
inductive ParsePolicy where
  | pdefault
  | pcommaSep
  | pconst (v : Option Value)
  | pfail (msg : String)

/-- The non-recursive per-field attributes read by the derive macro
(`metre-macros/src/attrs.rs`, `FieldArgs`): the declared identifier, the
optional `rename`, the optional explicit `env` key format, `skip_env` and
`flatten`. -/
structure FieldAttrs where
  ident : String
  rename : Option String
  env : Option String
  skipEnv : Bool
  flatten : Bool
deriving Repr, DecidableEq

/-- The serialized/path name of a field: the `rename` attribute if present,
else the declared identifier (config.rs, `field_name`). -/
def FieldAttrs.fieldName (a : FieldAttrs) : String :=
  a.rename.getD a.ident

mutual
/-- A configuration shape: the container attributes consulted by the derive
macro (`skip_env`, optional `env_prefix` format) and the ordered field
table. -/
inductive Shape where
  | mk (skipEnv : Bool) (envPrefixFmt : Option String) (fields : Fields)

/-- The ordered list of fields of a shape. -/
inductive Fields where
  | nil
  | cons (attrs : FieldAttrs) (kind : FieldKind) (rest : Fields)

/-- The kind of a field: a required leaf (`T`, partial `Option<T>`), an
optional leaf (`Option<T>`, partial `Option<Option<T>>`), a nested
configuration (`#[config(nested)] T`, partial `T::Partial`), or a nested
optional configuration (`#[config(nested)] Option<T>`, partial
`Option<T::Partial>` through the `Option` instances in `metre/src/lib.rs`).
Leaves carry their declared static default, merge policy, parse policy and
scalar type. -/
inductive FieldKind where
  | rleaf (ty : ScalarTy) (dflt : Option Value) (mp : MergePolicy) (pp : ParsePolicy)
  | oleaf (ty : ScalarTy) (dflt : Option (Option Value)) (mp : MergePolicy) (pp : ParsePolicy)
  | nested (s : Shape)
  | nestedOpt (s : Shape)
end

mutual
/-- A partial (mirror) value: required leaves hold `Option<T>`, optional
leaves hold `Option<Option<T>>`, nested fields hold the nested mirror, and
nested optional fields hold `Option` of the nested mirror. -/
inductive PValue where
  | rleaf (v : Option Value)
  | oleaf (v : Option (Option Value))
  | node (fs : PFields)
  | onode (v : Option PValue)

/-- The ordered field values of a mirror struct. -/
inductive PFields where
  | nil
  | cons (p : PValue) (rest : PFields)
end

mutual
/-- A finalized (strict) configuration value, as produced by
`from_partial`. -/
inductive CValue where
  | rleaf (v : Value)
  | oleaf (v : Option Value)
  | node (fs : CFields)
  | onode (v : Option CValue)

/-- The ordered field values of a finalized struct. -/
inductive CFields where
  | nil
  | cons (c : CValue) (rest : CFields)
end

/-! ## String helpers

The macro computes environment keys with `Inflector::to_screaming_snake_case`
and Rust `format!` strings containing a single `{}` placeholder
(config.rs, `fmt_has_prefix` / `get_field_env_key`).  We embed both over
`List Char` so that everything reduces in the kernel. -/

/-- One step of screaming-snake-case conversion: uppercase every letter and
insert an underscore at a lower-to-upper case boundary.  Embeds
`Inflector::to_screaming_snake_case` restricted to ASCII identifiers
(the only inputs the macro feeds it: Rust field identifiers and `rename`
values). -/
def screamingSnakeChars : List Char → List Char
  | [] => []
  | c :: rest =>
    let tail := screamingSnakeChars rest
    let tail :=
      match rest with
      | [] => tail
      | d :: _ => if c.isLower && d.isUpper then '_' :: tail else tail
    c.toUpper :: tail

/-- `Inflector::to_screaming_snake_case` for ASCII identifiers. -/
def screamingSnake (s : String) : String :=
  ⟨screamingSnakeChars s.data⟩

/-- Split a character list at the first occurrence of the `{}` placeholder,
returning the parts before and after it, or `none` when there is no
placeholder. -/
def findBrace : List Char → Option (List Char × List Char)
  | [] => none
  | '{' :: rest =>
    match rest with
    | '}' :: rest2 => some ([], rest2)
    | _ => (findBrace rest).map (fun ab => ('{' :: ab.1, ab.2))
  | c :: rest => (findBrace rest).map (fun ab => (c :: ab.1, ab.2))

/-- `fmt_has_prefix` (config.rs line 19): does the format string contain the
`{}` placeholder? -/
def fmtHasHole (fmt : String) : Bool :=
  (findBrace fmt.data).isSome

/-- Rust `format!(fmt, arg)` for a format string with (at most) one `{}`
placeholder: substitute `arg` for the placeholder; a string without a
placeholder is returned as is (the macro only calls `format!` when
`fmt_has_prefix` holds). -/
def applyFmt (fmt arg : String) : String :=
  match findBrace fmt.data with
  | none => fmt
  | some (a, b) => ⟨a ++ arg.data ++ b⟩

/-- The env key of a field (config.rs lines 162-183): the explicit
`env` attribute if declared, else `"{}"` for a flattened field, else
`"{}NAME"` with `NAME` the screaming-snake-case of the rename-or-declared
identifier; a `{}` placeholder is filled with the container env prefix, a
format without a placeholder is a fixed key. -/
def fieldEnvKey (a : FieldAttrs) (cpfx : String) : String :=
  let envName := screamingSnake (a.rename.getD a.ident)
  let envFmt :=
    match a.env with
    | some fmt => fmt
    | none => if a.flatten then "{}" else "{}" ++ envName
  if fmtHasHole envFmt then applyFmt envFmt cpfx else envFmt

/-- Join a dotted field path, as built by the repeated
`format!("{}.{}", name, rest)` calls of the generated code. -/
def joinDots : List String → String
  | [] => ""
  | [x] => x
  | x :: xs => x ++ "." ++ joinDots xs

/-- `<u16 as FromStr>::from_str`: an optional sign-free decimal number that
fits in 16 bits.  Error messages follow Rust's `ParseIntError` display. -/
def parseU16 (s : String) : Except String Value :=
  let chars := s.data
  let chars := match chars with
    | '+' :: rest => rest
    | cs => cs
  if chars.isEmpty then
    .error "cannot parse integer from empty string"
  else if chars.all Char.isDigit then
    let n := chars.foldl (fun acc c => acc * 10 + (c.toNat - '0'.toNat)) 0
    if n < 65536 then .ok (.nat n)
    else .error "number too large to fit in target type"
  else
    .error "invalid digit found in string"

/-- The default `FromStr` parse rule of a scalar type. -/
def ScalarTy.fromStr : ScalarTy → String → Except String Value
  | .tU16, s => parseU16 s
  | .tStr, s => .ok (.str s)

/-- `metre::parse::comma_separated::<u16>`: the empty string parses to the
empty vector, otherwise every comma-separated item must parse as `u16`. -/
def commaSeparatedU16 (s : String) : Except String (Option Value) :=
  if s.isEmpty then .ok (some (.vlist []))
  else
    let items := s.splitOn ","
    let rec go : List String → Except String (List Value)
      | [] => .ok []
      | x :: xs => do
        let v ← parseU16 x
        let vs ← go xs
        .ok (v :: vs)
    (go items).map (fun vs => some (.vlist vs))

/-! ## The generated engine operations

Each function below embeds the code the derive macro generates for a shape
(`metre-macros/src/config.rs`), together with the `Option` instances of
`Config`/`PartialConfig` from `metre/src/lib.rs` for nested optional
fields. -/

/- `is_empty` of the generated `PartialConfig` implementation
(config.rs lines 298-320 and 448-451) together with the `Option` instance
(lib.rs lines 248-253): a leaf is empty iff absent, a struct iff all its
fields are, an optional nested mirror iff it is `None` or its payload is
empty. -/
mutual
def isEmptyP : PValue → Bool
  | .rleaf v => v.isNone
  | .oleaf v => v.isNone
  | .node fs => isEmptyFs fs
  | .onode none => true
  | .onode (some p) => isEmptyP p

def isEmptyFs : PFields → Bool
  | .nil => true
  | .cons p ps => isEmptyP p && isEmptyFs ps
end

/- `Default::default()` of the generated partial struct (the derived
`Default` on the all-`serde(default)` struct, config.rs lines 404-411):
every leaf absent, nested mirrors default recursively, optional nested
mirrors `None`. -/
mutual
def emptyShape : Shape → PValue
  | .mk _ _ fs => .node (emptyFields fs)

def emptyFields : Fields → PFields
  | .nil => .nil
  | .cons _ k rest => .cons (emptyField k) (emptyFields rest)

def emptyField : FieldKind → PValue
  | .rleaf _ _ _ _ => .rleaf none
  | .oleaf _ _ _ _ => .oleaf none
  | .nested s => emptyShape s
  | .nestedOpt _ => .onode none
end

/- `PartialConfig::defaults()` as generated (config.rs lines 185-203,
416-420): a leaf with a `#[config(default = ...)]` attribute is present
with that value, other leaves are absent, nested fields recurse into their
own `defaults()`; for an `Option` nested field the `Option` instance
(lib.rs lines 215-222) collapses an empty inner default to `None`. -/
mutual
def defaultsShape : Shape → PValue
  | .mk _ _ fs => .node (defaultsFields fs)

def defaultsFields : Fields → PFields
  | .nil => .nil
  | .cons _ k rest => .cons (defaultsField k) (defaultsFields rest)

def defaultsField : FieldKind → PValue
  | .rleaf _ dflt _ _ => .rleaf dflt
  | .oleaf _ dflt _ _ => .oleaf dflt
  | .nested s => defaultsShape s
  | .nestedOpt s =>
    let inner := defaultsShape s
    if isEmptyP inner then .onode none else .onode (some inner)
end

/- Structural agreement between a mirror value and a shape: the typing
discipline Rust enforces statically. -/
mutual
def matchesShape : Shape → PValue → Bool
  | .mk _ _ fs, .node ps => matchesFields fs ps
  | _, _ => false

def matchesFields : Fields → PFields → Bool
  | .nil, .nil => true
  | .cons _ k rest, .cons p ps => matchesField k p && matchesFields rest ps
  | _, _ => false

def matchesField : FieldKind → PValue → Bool
  | .rleaf _ _ _ _, .rleaf _ => true
  | .oleaf _ _ _ _, .oleaf _ => true
  | .nested s, p => matchesShape s p
  | .nestedOpt _, .onode none => true
  | .nestedOpt s, .onode (some p) => matchesShape s p
  | _, _ => false
end

/-- `metre::util::merge_flat` (util.rs lines 15-21): a present incoming
value replaces the current one, an absent incoming value leaves it
untouched. -/
def mergeFlat {α : Type} (l r : Option α) : Option α :=
  match r with
  | some x => some x
  | none => l

/-- `metre::merge::append_vec` (merge.rs lines 15-25) on untyped values.
Rust's types guarantee both payloads are vectors; on (unreachable)
non-vector payloads we keep the current value. -/
def appendVecMerge (l r : Option Value) : Option Value :=
  match l, r with
  | some (.vlist a), some (.vlist b) => some (.vlist (a ++ b))
  | none, some rv => some rv
  | lv, none => lv
  | lv, some _ => lv

/- `PartialConfig::merge` as generated (config.rs lines 205-242, 287-289,
422-430): fields are merged in declaration order with their per-field merge
function; the first failing field stops the traversal, the `?` returns the
error, and fields already merged keep their merged value (the merge mutates
`self` in place).  Nested fields use `metre::util::merge_nested` with the
error re-tagged with the enclosing field name; a custom merge error is
tagged with the field name and the function's message.  For an `Option`
nested field the `Option` instance (lib.rs lines 224-233) replaces `None`
wholesale and recurses on `Some`/`Some`.  The result pairs the mutated
mirror with the error, if any. -/
mutual
def mergeShape : Shape → PValue → PValue → PValue × Option MergeError
  | .mk _ _ fs, .node ps, .node qs =>
    let r := mergeFields fs ps qs
    (.node r.1, r.2)
  | _, l, _ => (l, none)

def mergeFields : Fields → PFields → PFields → PFields × Option MergeError
  | .cons a k rest, .cons p ps, .cons q qs =>
    let r := mergeField a k p q
    match r.2 with
    | some e => (.cons r.1 ps, some e)
    | none =>
      let rs := mergeFields rest ps qs
      (.cons r.1 rs.1, rs.2)
  | _, ps, _ => (ps, none)

def mergeField (a : FieldAttrs) : FieldKind → PValue → PValue → PValue × Option MergeError
  | .rleaf _ _ .mdefault _, .rleaf l, .rleaf r => (.rleaf (mergeFlat l r), none)
  | .rleaf _ _ .mappend _, .rleaf l, .rleaf r => (.rleaf (appendVecMerge l r), none)
  | .rleaf _ _ (.mfail msg) _, .rleaf l, .rleaf _ =>
    (.rleaf l, some ⟨a.fieldName, msg⟩)
  | .oleaf _ _ .mdefault _, .oleaf l, .oleaf r => (.oleaf (mergeFlat l r), none)
  | .oleaf _ _ .mappend _, .oleaf l, .oleaf r => (.oleaf (mergeFlat l r), none)
  | .oleaf _ _ (.mfail msg) _, .oleaf l, .oleaf _ =>
    (.oleaf l, some ⟨a.fieldName, msg⟩)
  | .nested s, l, r =>
    let m := mergeShape s l r
    (m.1, m.2.map (fun e => ⟨a.fieldName ++ "." ++ e.field, e.message⟩))
  | .nestedOpt _, .onode none, .onode (some o) => (.onode (some o), none)
  | .nestedOpt s, .onode (some me), .onode (some o) =>
    let m := mergeShape s me o
    (.onode (some m.1), m.2.map (fun e => ⟨a.fieldName ++ "." ++ e.field, e.message⟩))
  | .nestedOpt _, .onode l, .onode none => (.onode l, none)
  | _, l, _ => (l, none)
end

/- `list_missing_properties` as generated (config.rs lines 291-314,
442-446): a required leaf that is absent contributes its field name, an
optional leaf never contributes, a nested field contributes its own missing
paths each prefixed with `name.`; an `Option` nested field goes through the
`Option` instance (lib.rs lines 235-246): `None` and `Some(empty)`
contribute nothing, `Some(non-empty)` contributes the inner missing
paths. -/
mutual
def listMissingShape : Shape → PValue → List String
  | .mk _ _ fs, .node ps => listMissingFields fs ps
  | _, _ => []

def listMissingFields : Fields → PFields → List String
  | .cons a k rest, .cons p ps => missingField a k p ++ listMissingFields rest ps
  | _, _ => []

def missingField (a : FieldAttrs) : FieldKind → PValue → List String
  | .rleaf _ _ _ _, .rleaf v => if v.isNone then [a.fieldName] else []
  | .oleaf _ _ _ _, _ => []
  | .nested s, p => (listMissingShape s p).map (fun q => a.fieldName ++ "." ++ q)
  | .nestedOpt _, .onode none => []
  | .nestedOpt s, .onode (some me) =>
    if isEmptyP me then []
    else (listMissingShape s me).map (fun q => a.fieldName ++ "." ++ q)
  | _, _ => []
end

/- `Config::from_partial` as generated (config.rs lines 455-476) together
with the field unwrapping (lines 304-331) and the `Option` instance
(lib.rs lines 197-212).  `none` models a panic of one of the
`.unwrap()` calls; `some (.error e)` the returned `FromPartialError`;
`some (.ok c)` the finished strict value. -/
mutual
def fromPartialShape : Shape → PValue → Option (Except FromPartialError CValue)
  | .mk cs pf fs, .node ps =>
    let missing := listMissingShape (.mk cs pf fs) (.node ps)
    if missing.isEmpty then
      match fromPartialFields fs ps with
      | some cs => some (.ok (.node cs))
      | none => none
    else
      some (.error ⟨missing⟩)
  | _, _ => none

def fromPartialFields : Fields → PFields → Option CFields
  | .nil, .nil => some .nil
  | .cons _ k rest, .cons p ps =>
    match fromPartialField k p, fromPartialFields rest ps with
    | some c, some cs => some (.cons c cs)
    | _, _ => none
  | _, _ => none

def fromPartialField : FieldKind → PValue → Option CValue
  | .rleaf _ _ _ _, .rleaf (some x) => some (.rleaf x)
  | .rleaf _ _ _ _, _ => none
  | .oleaf _ _ _ _, .oleaf v => some (.oleaf (v.getD none))
  | .oleaf _ _ _ _, _ => none
  | .nested s, p =>
    match fromPartialShape s p with
    | some (.ok c) => some c
    | _ => none
  | .nestedOpt _, .onode none => some (.onode none)
  | .nestedOpt s, .onode (some inner) =>
    if isEmptyP inner then some (.onode none)
    else
      match fromPartialShape s inner with
      | some (.ok c) => some (.onode (some c))
      | _ => none
  | .nestedOpt _, _ => none
end

/-- An environment provider (`EnvProvider`, lib.rs lines 276-284): reading
a key yields `none` when the variable is unset, a string when set, or a
provider error (e.g. a non-UTF8 value). -/
def EnvP : Type := String → Except String (Option String)

/-- Does the string end with an underscore (`str::ends_with('_')`)? -/
def endsUnderscore (s : String) : Bool :=
  match s.data.getLast? with
  | some c => c = '_'
  | none => false

/-- The parse of a present environment string for a required leaf
(config.rs lines 253-268): the default rule is
`FromStr::from_str(&v).map(Some)`; a declared `parse_env` function is
called directly and already returns an `Option` of the field value. -/
def parseLeafReq (ty : ScalarTy) : ParsePolicy → String → Except String (Option Value)
  | .pdefault, s => (ty.fromStr s).map some
  | .pcommaSep, s => commaSeparatedU16 s
  | .pconst o, _ => .ok o
  | .pfail msg, _ => .error msg

/-- The parse of a present environment string for an optional leaf
(config.rs lines 253-268): the default rule parses the inner type and wraps
`Some(Some v)`; a declared `parse_env` function's result is wrapped one
level with `.map(Some)`. -/
def parseLeafOpt (ty : ScalarTy) : ParsePolicy → String → Except String (Option (Option Value))
  | .pdefault, s => (ty.fromStr s).map (fun v => some (some v))
  | .pcommaSep, s => (commaSeparatedU16 s).map some
  | .pconst o, _ => .ok (some o)
  | .pfail msg, _ => .error msg

/-- The value of a field excluded from environment binding: the generated
code emits `None` (config.rs line 346).  That literal only typechecks for
`Option`-typed partial fields; for a plain nested field we take the
all-absent default mirror as the corresponding absent value. -/
def skipValue : FieldKind → PValue
  | .rleaf _ _ _ _ => .rleaf none
  | .oleaf _ _ _ _ => .oleaf none
  | .nested s => emptyShape s
  | .nestedOpt _ => .onode none

/- `from_env_with_provider_and_optional_prefix` as generated
(config.rs lines 333-401, 432-440) with the `Option` instance
(lib.rs lines 255-267).  A field is skipped when the container declares
`skip_env` and the field has no explicit `env` key, or (container not
skipped) when the field declares `skip_env`.  A nested field extends the
computed key with a `_` separator (unless already ending in one) and
recurses, re-tagging errors with the enclosing field name.  A leaf queries
the provider: an absent key gives an absent field, a present value is
parsed, and provider or parse failures carry the key, the field path and
the message. -/
mutual
def fromEnvShape (env : EnvP) : Shape → Option String → Except FromEnvError PValue
  | .mk cSkip pfxFmt fs, pfx =>
    let inherited := pfx.getD ""
    let cfmt := pfxFmt.getD "{}"
    let cpfx := if fmtHasHole cfmt then applyFmt cfmt inherited else cfmt
    match fromEnvFields env cSkip cpfx fs with
    | .ok ps => .ok (.node ps)
    | .error e => .error e

def fromEnvFields (env : EnvP) (cSkip : Bool) (cpfx : String) : Fields → Except FromEnvError PFields
  | .nil => .ok .nil
  | .cons a k rest =>
    match fromEnvField env cSkip cpfx a k with
    | .error e => .error e
    | .ok v =>
      match fromEnvFields env cSkip cpfx rest with
      | .error e => .error e
      | .ok vs => .ok (.cons v vs)

def fromEnvField (env : EnvP) (cSkip : Bool) (cpfx : String) (a : FieldAttrs) :
    FieldKind → Except FromEnvError PValue
  | .rleaf ty _ _ pp =>
    if (if cSkip then a.env.isNone else a.skipEnv) then .ok (.rleaf none)
    else
      let key := fieldEnvKey a cpfx
      match env key with
      | .error e => .error ⟨key, a.fieldName, e⟩
      | .ok none => .ok (.rleaf none)
      | .ok (some envValue) =>
        match parseLeafReq ty pp envValue with
        | .ok v => .ok (.rleaf v)
        | .error msg => .error ⟨key, a.fieldName, msg⟩
  | .oleaf ty _ _ pp =>
    if (if cSkip then a.env.isNone else a.skipEnv) then .ok (.oleaf none)
    else
      let key := fieldEnvKey a cpfx
      match env key with
      | .error e => .error ⟨key, a.fieldName, e⟩
      | .ok none => .ok (.oleaf none)
      | .ok (some envValue) =>
        match parseLeafOpt ty pp envValue with
        | .ok v => .ok (.oleaf v)
        | .error msg => .error ⟨key, a.fieldName, msg⟩
  | .nested s =>
    if (if cSkip then a.env.isNone else a.skipEnv) then .ok (emptyShape s)
    else
      let np := fieldEnvKey a cpfx
      let np := if !np.isEmpty && !endsUnderscore np then np ++ "_" else np
      match fromEnvShape env s (some np) with
      | .ok v => .ok v
      | .error e => .error ⟨e.key, a.fieldName ++ "." ++ e.field, e.message⟩
  | .nestedOpt s =>
    if (if cSkip then a.env.isNone else a.skipEnv) then .ok (.onode none)
    else
      let np := fieldEnvKey a cpfx
      let np := if !np.isEmpty && !endsUnderscore np then np ++ "_" else np
      match fromEnvShape env s (some np) with
      | .ok v => .ok (if isEmptyP v then .onode none else .onode (some v))
      | .error e => .error ⟨e.key, a.fieldName ++ "." ++ e.field, e.message⟩
end

/- The static shape-definition checks the derive macro performs before
emitting any code: a container may not declare both `env_prefix` and
`skip_env` (config.rs lines 88-95), and a field may not declare both `env`
and `skip_env` (config.rs lines 244-251); nested shapes run their own
derive and hence their own checks. -/
mutual
def checkShape : Shape → Bool
  | .mk cSkip pfxFmt fs => !(cSkip && pfxFmt.isSome) && checkFields fs

def checkFields : Fields → Bool
  | .nil => true
  | .cons a k rest =>
    !(a.skipEnv && a.env.isSome) && checkFieldKind k && checkFields rest

def checkFieldKind : FieldKind → Bool
  | .nested s => checkShape s
  | .nestedOpt s => checkShape s
  | _ => true
end

/-! ## The `Option` instances (lib.rs)

For a nested optional configuration (`Option<T>` where `T: Config`),
`metre/src/lib.rs` implements `Config for Option<T>` (lines 197-212) and
`PartialConfig for Option<T::Partial>` (lines 214-267).  The functions
below embed those instances directly, instantiated at a configuration
shape `s` for `T`. -/

/-- `impl Config for Option<T>::from_partial` (lib.rs lines 197-212):
`None` and `Some(empty)` finalize to `None`; otherwise `T::from_partial`
runs on the payload.  `none` models a panic inside the recursive call. -/
def optFinalize (s : Shape) : Option PValue → Option (Except FromPartialError (Option CValue))
  | none => some (.ok none)
  | some inner =>
    if isEmptyP inner then some (.ok none)
    else
      match fromPartialShape s inner with
      | none => none
      | some (.error e) => some (.error e)
      | some (.ok v) => some (.ok (some v))

/-- `impl PartialConfig for Option<T>::defaults` (lib.rs lines 215-222):
the inner defaults, collapsed to `None` when empty. -/
def optDefaults (s : Shape) : Option PValue :=
  let inner := defaultsShape s
  if isEmptyP inner then none else some inner

/-- `impl PartialConfig for Option<T>::from_env_with_provider_and_optional_prefix`
(lib.rs lines 255-267): the inner `from_env`, collapsed to `None` when the
produced mirror is empty. -/
def optFromEnv (env : EnvP) (s : Shape) (pfx : Option String) :
    Except FromEnvError (Option PValue) :=
  match fromEnvShape env s pfx with
  | .error e => .error e
  | .ok v => .ok (if isEmptyP v then none else some v)

/-! ## The `ConfigLoader` orchestrator (lib.rs lines 378-617) -/

/-- A loader-level error: the environment-binding, merge and finalization
error kinds of `metre::error::Error` that the embedded engine can produce. -/
inductive LoadError where
  | envErr (e : FromEnvError)
  | mergeErr (e : MergeError)
  | finishErr (e : FromPartialError)
deriving Repr, DecidableEq

/-- `ConfigLoader::new` (lib.rs lines 386-390): the accumulated state
starts as `T::Partial::default()`. -/
def loaderNew (s : Shape) : PValue := emptyShape s

/-- `ConfigLoader::_add` (lib.rs lines 587-592): merge the new partial into
the accumulated state in place; the state after the call is the mutated
mirror even when the merge reports an error. -/
def loaderAdd (s : Shape) (st q : PValue) : PValue × Option LoadError :=
  let m := mergeShape s st q
  (m.1, m.2.map .mergeErr)

/-- `ConfigLoader::defaults` (lib.rs lines 576-578). -/
def loaderDefaults (s : Shape) (st : PValue) : PValue × Option LoadError :=
  loaderAdd s st (defaultsShape s)

/-- `ConfigLoader::_env` (lib.rs lines 524-527): build the partial from the
environment first; a binding error leaves the state untouched, otherwise
the partial is merged via `_add`. -/
def loaderAddEnv (s : Shape) (st : PValue) (env : EnvP) (pfx : Option String) :
    PValue × Option LoadError :=
  match fromEnvShape env s pfx with
  | .error e => (st, some (.envErr e))
  | .ok q => loaderAdd s st q

/-- `ConfigLoader::finish` (lib.rs lines 613-616): finalize the accumulated
state through `T::from_partial`. -/
def loaderFinish (s : Shape) (st : PValue) : Option (Except FromPartialError CValue) :=
  fromPartialShape s st

/-! ## Concrete example shapes for scenarios and witnesses -/

/-- A plain `port: u16` required field with no attributes. -/
def exPortAttrs : FieldAttrs := ⟨"port", none, none, false, false⟩

/-- A plain `nested` field with no attributes. -/
def exNestedAttrs : FieldAttrs := ⟨"nested", none, none, false, false⟩

/-- The shape `{port: u16}` (required, no attributes). -/
def exInner : Shape :=
  .mk false none (.cons exPortAttrs (.rleaf .tU16 none .mdefault .pdefault) .nil)

/-- The shape `{nested: {port: u16}}` with `nested` a nested configuration. -/
def exOuter : Shape := .mk false none (.cons exNestedAttrs (.nested exInner) .nil)

/-- An environment provider holding exactly `NESTED_PORT=3000`. -/
def exEnv : EnvP := fun k => if k = "NESTED_PORT" then .ok (some "3000") else .ok none

/-! ## Helper lemmas -/

mutual
theorem isEmpty_empty_shape : ∀ s : Shape, isEmptyP (emptyShape s) = true
  | .mk _ _ fs => by simpa [emptyShape, isEmptyP] using isEmpty_empty_fields fs

theorem isEmpty_empty_fields : ∀ fs : Fields, isEmptyFs (emptyFields fs) = true
  | .nil => rfl
  | .cons _ k rest => by
    simp [emptyFields, isEmptyFs, isEmpty_empty_field k, isEmpty_empty_fields rest]

theorem isEmpty_empty_field : ∀ k : FieldKind, isEmptyP (emptyField k) = true
  | .rleaf _ _ _ _ => rfl
  | .oleaf _ _ _ _ => rfl
  | .nested s => by simpa [emptyField] using isEmpty_empty_shape s
  | .nestedOpt _ => rfl
end

/-! ## Claims -/

/-- C4: for every configuration shape, the plain default construction of
its mirror (`Partial::default()`, used by `ConfigLoader::new`) satisfies
`is_empty`, regardless of any static per-field defaults declared on the
shape (the shape, defaults included, is universally quantified). -/
theorem c4_default_construction_is_empty :
    ∀ s : Shape, isEmptyP (loaderNew s) = true :=
  fun s => isEmpty_empty_shape s

/-- C6: for the shape `{nested: {port: u16 required}}` with no env
overrides, renames or declared prefixes, `from_env` with no prefix against
a provider holding `NESTED_PORT=3000` yields a mirror with `nested.port`
present with value `3000`; the leaf's key is the screaming-snake-case
nested field name, a `_` separator and the screaming-snake-case leaf
name. -/
theorem c6_nested_env_key :
    fromEnvShape exEnv exOuter none =
      .ok (.node (.cons (.node (.cons (.rleaf (some (.nat 3000))) .nil)) .nil))
    ∧ fieldEnvKey exPortAttrs (fieldEnvKey exNestedAttrs "" ++ "_") =
        screamingSnake "nested" ++ "_" ++ screamingSnake "port" := by
  exact ⟨rfl, rfl⟩

/-- C10: for a nested optional configuration field (`Option<T>` with `T` a
configuration shape), finalizing yields `None` when the mirror is `None` or
`Some` of an empty inner mirror, and yields `Some` of `T`'s finalization
exactly on a non-empty inner mirror; `defaults()` and `from_env` collapse
an empty inner mirror to `None` rather than keeping `Some(empty)`. -/
theorem c10_option_nested_collapse (s : Shape) (p : PValue) (env : EnvP) (pfx : Option String) :
    optFinalize s none = some (.ok none)
    ∧ (isEmptyP p = true → optFinalize s (some p) = some (.ok none))
    ∧ (isEmptyP p = false →
        optFinalize s (some p) =
          match fromPartialShape s p with
          | none => none
          | some (.error e) => some (.error e)
          | some (.ok v) => some (.ok (some v)))
    ∧ (isEmptyP (defaultsShape s) = true → optDefaults s = none)
    ∧ (isEmptyP (defaultsShape s) = false → optDefaults s = some (defaultsShape s))
    ∧ (∀ v, fromEnvShape env s pfx = .ok v → isEmptyP v = true →
        optFromEnv env s pfx = .ok none) := by
  refine ⟨rfl, fun h => by simp [optFinalize, h], fun h => by simp [optFinalize, h],
    fun h => by simp [optDefaults, h], fun h => by simp [optDefaults, h],
    fun v hv he => by simp [optFromEnv, hv, he]⟩

/-- Witness for C10 at the concrete shape `{port: u16}`: an empty inner
mirror finalizes to `None`, empty defaults collapse to `None`, and an
empty environment binds to `None`. -/
theorem c10_witness :
    optFinalize exInner (some (emptyShape exInner)) = some (.ok none)
    ∧ optDefaults exInner = none
    ∧ optFromEnv (fun _ => .ok none) exInner none = .ok none := by
  have h := c10_option_nested_collapse exInner (emptyShape exInner) (fun _ => .ok none) none
  exact ⟨h.2.1 (by rfl), h.2.2.2.1 (by rfl), h.2.2.2.2.2 (.node (.cons (.rleaf none) .nil)) (by rfl) (by rfl)⟩

/-- C5: for every leaf field bound from the environment (not effectively
skipped) and every provider: an absent key yields an absent field without
error; a present string whose parse (declared parser or the type's default
rule) fails yields a `FromEnvError` carrying the computed key, the field's
path and the parse message.  Stated for both required and optional
leaves. -/
theorem c5_env_leaf_absent_and_parse_error (env : EnvP) (cSkip : Bool) (cpfx : String)
    (a : FieldAttrs) (ty : ScalarTy) (d : Option Value) (d' : Option (Option Value))
    (mp : MergePolicy) (pp : ParsePolicy)
    (hskip : (if cSkip then a.env.isNone else a.skipEnv) = false) :
    (env (fieldEnvKey a cpfx) = .ok none →
      fromEnvField env cSkip cpfx a (.rleaf ty d mp pp) = .ok (.rleaf none)
      ∧ fromEnvField env cSkip cpfx a (.oleaf ty d' mp pp) = .ok (.oleaf none))
    ∧ (∀ sv msg, env (fieldEnvKey a cpfx) = .ok (some sv) →
        parseLeafReq ty pp sv = .error msg →
        fromEnvField env cSkip cpfx a (.rleaf ty d mp pp) =
          .error ⟨fieldEnvKey a cpfx, a.fieldName, msg⟩)
    ∧ (∀ sv msg, env (fieldEnvKey a cpfx) = .ok (some sv) →
        parseLeafOpt ty pp sv = .error msg →
        fromEnvField env cSkip cpfx a (.oleaf ty d' mp pp) =
          .error ⟨fieldEnvKey a cpfx, a.fieldName, msg⟩) := by
  refine ⟨fun h => ⟨by simp [fromEnvField, hskip, h], by simp [fromEnvField, hskip, h]⟩,
    fun sv msg h hp => by simp [fromEnvField, hskip, h, hp],
    fun sv msg h hp => by simp [fromEnvField, hskip, h, hp]⟩

/-- Witness for C5 at the field `port: u16`: an empty provider leaves the
field absent; a provider with `PORT=abc` fails with the `u16` parse
message for key `PORT` and field `port`. -/
theorem c5_witness :
    fromEnvField (fun _ => .ok none) false "" exPortAttrs (.rleaf .tU16 none .mdefault .pdefault)
      = .ok (.rleaf none)
    ∧ fromEnvField (fun _ => .ok (some "abc")) false "" exPortAttrs
        (.rleaf .tU16 none .mdefault .pdefault)
      = .error ⟨"PORT", "port", "invalid digit found in string"⟩ := by
  refine ⟨((c5_env_leaf_absent_and_parse_error (fun _ => .ok none) false "" exPortAttrs
      .tU16 none none .mdefault .pdefault rfl).1 rfl).1, ?_⟩
  exact (c5_env_leaf_absent_and_parse_error (fun _ => .ok (some "abc")) false "" exPortAttrs
      .tU16 none none .mdefault .pdefault rfl).2.1 "abc" "invalid digit found in string" rfl rfl

/-- The attributes of a field `secret` with an explicit env key `FOO` and
no field-level `skip_env`. -/
def c7FieldAttrs : FieldAttrs := ⟨"secret", none, some "FOO", false, false⟩

/-- A shape declaring container-level `skip_env` whose single field
declares an explicit env key `FOO`. -/
def c7Shape : Shape :=
  .mk true none (.cons c7FieldAttrs (.rleaf .tStr none .mdefault .pdefault) .nil)

/-- A provider holding `FOO=x`. -/
def c7Env : EnvP := fun k => if k = "FOO" then .ok (some "x") else .ok none

/-- Counterexample to C7: the shape declares container-level `skip_env`,
passes every static check, yet `from_env` binds its field from the
provider: the generated per-field skip is `attrs.env.is_none()` under a
skipped container (config.rs lines 335-341), so a field with an explicit
`env` key still binds. -/
theorem c7_counterexample :
    checkShape c7Shape = true
    ∧ fromEnvShape c7Env c7Shape none =
        .ok (.node (.cons (.rleaf (some (.str "x"))) .nil)) := by
  exact ⟨rfl, rfl⟩

/-- C7 as amended: a field declaring `skip_env` (container not skipped) is
always absent; a field of a `skip_env` container *that has no explicit
`env` key of its own* is always absent; a field of a `skip_env` container
with an explicit `env` key still binds.  Declaring both `env` and
`skip_env` on one field, or both `env_prefix` and `skip_env` on one
container, fails the static checks. -/
theorem c7_amended (env : EnvP) (cpfx : String) (a : FieldAttrs) (k : FieldKind)
    (rest : Fields) (pfxFmt : String) (fs : Fields) :
    (a.skipEnv = true → fromEnvField env false cpfx a k = .ok (skipValue k))
    ∧ (a.env = none → fromEnvField env true cpfx a k = .ok (skipValue k))
    ∧ (a.skipEnv = true → a.env.isSome = true → checkFields (.cons a k rest) = false)
    ∧ checkShape (.mk true (some pfxFmt) fs) = false := by
  refine ⟨fun h => ?_, fun h => ?_, fun h1 h2 => by simp [checkFields, h1, h2], by simp [checkShape]⟩
  · cases k <;> simp [fromEnvField, skipValue, h]
  · cases k <;> simp [fromEnvField, skipValue, h]

/-- Witness for C7 (amended) at a concrete field and container. -/
theorem c7_witness :
    fromEnvField c7Env false "" ⟨"secret", none, none, true, false⟩
      (.rleaf .tStr none .mdefault .pdefault) = .ok (.rleaf none)
    ∧ checkFields (.cons ⟨"secret", none, some "FOO", true, false⟩
        (.rleaf .tStr none .mdefault .pdefault) .nil) = false
    ∧ checkShape (.mk true (some "{}APP_") .nil) = false := by
  have h := c7_amended c7Env "" ⟨"secret", none, none, true, false⟩
    (.rleaf .tStr none .mdefault .pdefault) .nil "{}APP_" .nil
  have h2 := c7_amended c7Env "" ⟨"secret", none, some "FOO", true, false⟩
    (.rleaf .tStr none .mdefault .pdefault) .nil "{}APP_" .nil
  exact ⟨h.1 rfl, h2.2.2.1 rfl rfl, h.2.2.2⟩

/-! ## Finalization: `from_partial` (C2, C9) -/

/- Modelled from the spec (§4.4): the strict configuration produced on the
success path — "for every field, unwraps its present value (leaf) or
recursively finalizes its nested mirror"; optional leaves "unwrap to
absent rather than failing when not present".  A total function: an absent
required leaf (unreachable when no property is missing) is filled with a
junk value, so this definition is only meaningful under an empty
missing-properties list. -/
mutual
def finalizeSpec : Shape → PValue → CValue
  | .mk _ _ fs, .node ps => .node (finalizeSpecFields fs ps)
  | _, _ => .node .nil

def finalizeSpecFields : Fields → PFields → CFields
  | .cons _ k rest, .cons p ps => .cons (finalizeSpecField k p) (finalizeSpecFields rest ps)
  | _, _ => .nil

def finalizeSpecField : FieldKind → PValue → CValue
  | .rleaf _ _ _ _, .rleaf (some x) => .rleaf x
  | .oleaf _ _ _ _, .oleaf v => .oleaf (v.getD none)
  | .nested s, p => finalizeSpec s p
  | .nestedOpt _, .onode none => .onode none
  | .nestedOpt s, .onode (some inner) =>
    if isEmptyP inner then .onode none else .onode (some (finalizeSpec s inner))
  | _, _ => .rleaf (.str "")
end

mutual
theorem fromPartial_eq_shape : ∀ (s : Shape) (p : PValue), matchesShape s p = true →
    fromPartialShape s p =
      (if listMissingShape s p = [] then some (.ok (finalizeSpec s p))
       else some (.error ⟨listMissingShape s p⟩))
  | .mk cs pf fs, .node ps, h => by
    have hm : matchesFields fs ps = true := by simpa [matchesShape] using h
    by_cases hmiss : listMissingFields fs ps = []
    · have := fromPartialFields_eq fs ps hm hmiss
      simp [fromPartialShape, listMissingShape, finalizeSpec, hmiss, this]
    · simp [fromPartialShape, listMissingShape, hmiss, List.isEmpty_iff]
  | .mk _ _ _, .rleaf _, h => by simp [matchesShape] at h
  | .mk _ _ _, .oleaf _, h => by simp [matchesShape] at h
  | .mk _ _ _, .onode _, h => by simp [matchesShape] at h

theorem fromPartialFields_eq : ∀ (fs : Fields) (ps : PFields),
    matchesFields fs ps = true → listMissingFields fs ps = [] →
    fromPartialFields fs ps = some (finalizeSpecFields fs ps)
  | .nil, .nil, _, _ => rfl
  | .cons a k rest, .cons p ps, h, hmiss => by
    have hk : matchesField k p = true := by
      have := h; simp [matchesFields] at this; exact this.1
    have hrest : matchesFields rest ps = true := by
      have := h; simp [matchesFields] at this; exact this.2
    have hm1 : missingField a k p = [] := by
      have := hmiss; simp [listMissingFields, List.append_eq_nil] at this; exact this.1
    have hm2 : listMissingFields rest ps = [] := by
      have := hmiss; simp [listMissingFields, List.append_eq_nil] at this; exact this.2
    have h1 := fromPartialField_eq a k p hk hm1
    have h2 := fromPartialFields_eq rest ps hrest hm2
    simp [fromPartialFields, finalizeSpecFields, h1, h2]
  | .nil, .cons _ _, h, _ => by simp [matchesFields] at h
  | .cons _ _ _, .nil, h, _ => by simp [matchesFields] at h

theorem fromPartialField_eq : ∀ (a : FieldAttrs) (k : FieldKind) (p : PValue),
    matchesField k p = true → missingField a k p = [] →
    fromPartialField k p = some (finalizeSpecField k p)
  | _, .rleaf _ _ _ _, .rleaf (some _), _, _ => rfl
  | a, .rleaf _ _ _ _, .rleaf none, _, hmiss => by
    simp [missingField] at hmiss
  | _, .rleaf _ _ _ _, .oleaf _, h, _ => by simp [matchesField] at h
  | _, .rleaf _ _ _ _, .node _, h, _ => by simp [matchesField] at h
  | _, .rleaf _ _ _ _, .onode _, h, _ => by simp [matchesField] at h
  | _, .oleaf _ _ _ _, .oleaf _, _, _ => rfl
  | _, .oleaf _ _ _ _, .rleaf _, h, _ => by simp [matchesField] at h
  | _, .oleaf _ _ _ _, .node _, h, _ => by simp [matchesField] at h
  | _, .oleaf _ _ _ _, .onode _, h, _ => by simp [matchesField] at h
  | a, .nested s, p, h, hmiss => by
    have hm : matchesShape s p = true := by simpa [matchesField] using h
    have hempty : listMissingShape s p = [] := by
      simpa [missingField, List.map_eq_nil_iff] using hmiss
    have := fromPartial_eq_shape s p hm
    simp [fromPartialField, finalizeSpecField, this, hempty]
  | _, .nestedOpt _, .onode none, _, _ => rfl
  | a, .nestedOpt s, .onode (some inner), h, hmiss => by
    have hm : matchesShape s inner = true := by simpa [matchesField] using h
    by_cases hie : isEmptyP inner = true
    · simp [fromPartialField, finalizeSpecField, hie]
    · have hempty : listMissingShape s inner = [] := by
        simp [missingField, hie, List.map_eq_nil_iff] at hmiss; exact hmiss
      have := fromPartial_eq_shape s inner hm
      simp [fromPartialField, finalizeSpecField, hie, this, hempty]
  | _, .nestedOpt _, .rleaf _, h, _ => by simp [matchesField] at h
  | _, .nestedOpt _, .oleaf _, h, _ => by simp [matchesField] at h
  | _, .nestedOpt _, .node _, h, _ => by simp [matchesField] at h
end

/-- C2: `from_partial` (and hence `ConfigLoader::finish`) errors exactly
when `list_missing_properties` is non-empty, and the error carries exactly
that list; when the list is empty it succeeds with the strict value whose
leaves are the unwrapped present partial values and whose nested fields
are the recursive finalizations (the spec-side `finalizeSpec`). -/
theorem c2_finish_iff_missing (s : Shape) (p : PValue) (h : matchesShape s p = true) :
    loaderFinish s p = fromPartialShape s p
    ∧ (listMissingShape s p ≠ [] ↔
        fromPartialShape s p = some (.error ⟨listMissingShape s p⟩))
    ∧ (listMissingShape s p = [] →
        fromPartialShape s p = some (.ok (finalizeSpec s p))) := by
  have he := fromPartial_eq_shape s p h
  refine ⟨rfl, ⟨fun hne => by rw [he]; simp [hne], fun heq => ?_⟩,
    fun hm => by rw [he]; simp [hm]⟩
  intro hm
  rw [he] at heq
  simp [hm] at heq

/-- Witness for C2 at the shape `{port: u16}`: the empty mirror fails with
exactly `["port"]` missing; a mirror with `port` present finishes with the
unwrapped value. -/
theorem c2_witness :
    fromPartialShape exInner (emptyShape exInner) = some (.error ⟨["port"]⟩)
    ∧ fromPartialShape exInner (.node (.cons (.rleaf (some (.nat 1))) .nil))
      = some (.ok (.node (.cons (.rleaf (.nat 1)) .nil))) := by
  refine ⟨(c2_finish_iff_missing exInner (emptyShape exInner) rfl).2.1.mp (by simp [listMissingShape, exInner, emptyShape, emptyFields, emptyField, listMissingFields, missingField, exPortAttrs]), ?_⟩
  exact (c2_finish_iff_missing exInner (.node (.cons (.rleaf (some (.nat 1))) .nil)) rfl).2.2 rfl

/-- C9: `from_partial` never panics — the unconditional `.unwrap()` calls
in the generated code are unreachable once the missing-properties check
returned the empty list, so the result is always a returned `Result`
(`isSome` in the panic-as-`none` model). -/
theorem c9_from_partial_no_panic (s : Shape) (p : PValue) (h : matchesShape s p = true) :
    (fromPartialShape s p).isSome = true := by
  rw [fromPartial_eq_shape s p h]
  split <;> rfl

/-- Witness for C9: evaluation at the shape `{nested: {port: u16}}` with
the all-absent mirror (whose required leaf would make a bare unwrap
panic). -/
theorem c9_witness : (fromPartialShape exOuter (emptyShape exOuter)).isSome = true :=
  c9_from_partial_no_panic exOuter (emptyShape exOuter) rfl

/-! ## Loader error accumulation (C8) -/

/-- Index access into the field values of a mirror struct. -/
def pAt : PFields → Nat → Option PValue
  | .cons p _, 0 => some p
  | .cons _ rest, Nat.succ i => pAt rest i
  | .nil, _ => none

/-- Index access into the field table of a shape. -/
def fAt : Fields → Nat → Option (FieldAttrs × FieldKind)
  | .cons a k _, 0 => some (a, k)
  | .cons _ _ rest, Nat.succ i => fAt rest i
  | .nil, _ => none

theorem mergeFields_error_split : ∀ (fs : Fields) (ps qs : PFields) (e : MergeError),
    (mergeFields fs ps qs).2 = some e →
    ∃ i a k p q,
      fAt fs i = some (a, k) ∧ pAt ps i = some p ∧ pAt qs i = some q
      ∧ (mergeField a k p q).2 = some e
      ∧ pAt (mergeFields fs ps qs).1 i = some (mergeField a k p q).1
      ∧ (∀ j, j < i → ∀ a' k' p' q', fAt fs j = some (a', k') → pAt ps j = some p' →
          pAt qs j = some q' →
          (mergeField a' k' p' q').2 = none
          ∧ pAt (mergeFields fs ps qs).1 j = some (mergeField a' k' p' q').1)
      ∧ (∀ j, i < j → pAt (mergeFields fs ps qs).1 j = pAt ps j)
  | .cons a k rest, .cons p ps, .cons q qs, e, herr => by
    cases hr : (mergeField a k p q).2 with
    | some e' =>
      have he : e' = e := by
        simp [mergeFields, hr] at herr; exact herr
      subst he
      refine ⟨0, a, k, p, q, rfl, rfl, rfl, hr, ?_, ?_, ?_⟩
      · simp [mergeFields, hr, pAt]
      · intro j hj; omega
      · intro j hj
        match j, hj with
        | Nat.succ j', _ => simp [mergeFields, hr, pAt]
    | none =>
      have herr' : (mergeFields rest ps qs).2 = some e := by
        simpa [mergeFields, hr] using herr
      obtain ⟨i, a', k', p', q', hf, hp, hq, hme, hpr, hpre, hsuf⟩ :=
        mergeFields_error_split rest ps qs e herr'
      refine ⟨i + 1, a', k', p', q', hf, hp, hq, hme, ?_, ?_, ?_⟩
      · simpa [mergeFields, hr, pAt] using hpr
      · intro j hj
        match j, hj with
        | 0, _ =>
          intro a2 k2 p2 q2 ha2 hp2 hq2
          have : a = a2 ∧ k = k2 := by simpa [fAt] using ha2
          obtain ⟨rfl, rfl⟩ := this
          have : p = p2 := by simpa [pAt] using hp2
          subst this
          have : q = q2 := by simpa [pAt] using hq2
          subst this
          exact ⟨hr, by simp [mergeFields, hr, pAt]⟩
        | Nat.succ j', hj =>
          intro a2 k2 p2 q2 ha2 hp2 hq2
          have hlt : j' < i := by omega
          have := hpre j' hlt a2 k2 p2 q2 (by simpa [fAt] using ha2)
            (by simpa [pAt] using hp2) (by simpa [pAt] using hq2)
          exact ⟨this.1, by simpa [mergeFields, hr, pAt] using this.2⟩
      · intro j hj
        match j, hj with
        | Nat.succ j', hj =>
          have : i < j' := by omega
          simpa [mergeFields, hr, pAt] using hsuf j' this
  | .nil, ps, qs, e, herr => by simp [mergeFields] at herr
  | .cons _ _ _, .nil, qs, e, herr => by simp [mergeFields] at herr
  | .cons _ _ _, .cons _ _, .nil, e, herr => by simp [mergeFields] at herr

/-- A second plain field `items` for the two-field counterexample shape. -/
def c8ItemsAttrs : FieldAttrs := ⟨"items", none, none, false, false⟩

/-- Shape `{port: u16, items: u16}` where `items` declares a custom merge
function that always fails with message `boom`. -/
def c8Shape : Shape :=
  .mk false none (.cons exPortAttrs (.rleaf .tU16 none .mdefault .pdefault)
    (.cons c8ItemsAttrs (.rleaf .tU16 none (.mfail "boom") .pdefault) .nil))

/-- An incoming partial setting `port=5` and `items=6`. -/
def c8Incoming : PValue :=
  .node (.cons (.rleaf (some (.nat 5))) (.cons (.rleaf (some (.nat 6))) .nil))

/-- Counterexample to C8: merging `c8Incoming` into the empty accumulated
state fails on the second field's custom merge policy, yet the loader's
accumulated state after the failing call has `port=5` already merged — it
is not "exactly what it was before the failing call". -/
theorem c8_counterexample :
    (loaderAdd c8Shape (emptyShape c8Shape) c8Incoming).2
      = some (.mergeErr ⟨"items", "boom"⟩)
    ∧ (loaderAdd c8Shape (emptyShape c8Shape) c8Incoming).1
      = .node (.cons (.rleaf (some (.nat 5))) (.cons (.rleaf none) .nil))
    ∧ (.node (.cons (.rleaf (some (.nat 5))) (.cons (.rleaf none) .nil)) : PValue)
      ≠ emptyShape c8Shape := by
  refine ⟨rfl, rfl, ?_⟩
  simp [emptyShape, emptyFields, emptyField, c8Shape]

/-- C8 as amended: an error raised before merging begins (here: an
environment-binding error inside `add_env`) leaves the accumulated state
exactly intact; a `MergeError` raised while merging stops accumulation at
the first failing field: fields before it hold their per-field merged
values, the failing field holds the failing merge's left result, and every
field after it keeps its prior accumulated value. -/
theorem c8_first_error_stops (s : Shape) (st : PValue) (env : EnvP) (pfx : Option String)
    (e' : FromEnvError) (fs : Fields) (ps qs : PFields) (e : MergeError) :
    (fromEnvShape env s pfx = .error e' → loaderAddEnv s st env pfx = (st, some (.envErr e')))
    ∧ ((mergeFields fs ps qs).2 = some e →
        ∃ i a k p q,
          fAt fs i = some (a, k) ∧ pAt ps i = some p ∧ pAt qs i = some q
          ∧ (mergeField a k p q).2 = some e
          ∧ pAt (mergeFields fs ps qs).1 i = some (mergeField a k p q).1
          ∧ (∀ j, j < i → ∀ a' k' p' q', fAt fs j = some (a', k') → pAt ps j = some p' →
              pAt qs j = some q' →
              (mergeField a' k' p' q').2 = none
              ∧ pAt (mergeFields fs ps qs).1 j = some (mergeField a' k' p' q').1)
          ∧ (∀ j, i < j → pAt (mergeFields fs ps qs).1 j = pAt ps j)) :=
  ⟨fun h => by simp [loaderAddEnv, h], fun h => mergeFields_error_split fs ps qs e h⟩

/-- Witness for C8 (amended): a provider failure during `add_env` leaves
the state intact at a concrete shape, and the two-field counterexample
shape exhibits the first-failing-field decomposition. -/
theorem c8_witness :
    loaderAddEnv exInner (emptyShape exInner) (fun _ => .error "bad") none
      = (emptyShape exInner, some (.envErr ⟨"PORT", "port", "bad"⟩))
    ∧ ∃ i a k p q,
        fAt (.cons exPortAttrs (.rleaf .tU16 none .mdefault .pdefault)
            (.cons c8ItemsAttrs (.rleaf .tU16 none (.mfail "boom") .pdefault) .nil)) i
          = some (a, k)
        ∧ pAt (.cons (.rleaf none) (.cons (.rleaf none) .nil)) i = some p
        ∧ pAt (.cons (.rleaf (some (.nat 5))) (.cons (.rleaf (some (.nat 6))) .nil)) i = some q
        ∧ (mergeField a k p q).2 = some ⟨"items", "boom"⟩
        ∧ pAt (mergeFields
            (.cons exPortAttrs (.rleaf .tU16 none .mdefault .pdefault)
              (.cons c8ItemsAttrs (.rleaf .tU16 none (.mfail "boom") .pdefault) .nil))
            (.cons (.rleaf none) (.cons (.rleaf none) .nil))
            (.cons (.rleaf (some (.nat 5))) (.cons (.rleaf (some (.nat 6))) .nil))).1 i
          = some (mergeField a k p q).1
        ∧ (∀ j, j < i → ∀ a' k' p' q',
            fAt (.cons exPortAttrs (.rleaf .tU16 none .mdefault .pdefault)
                (.cons c8ItemsAttrs (.rleaf .tU16 none (.mfail "boom") .pdefault) .nil)) j
              = some (a', k')
            → pAt (.cons (.rleaf none) (.cons (.rleaf none) .nil)) j = some p'
            → pAt (.cons (.rleaf (some (.nat 5))) (.cons (.rleaf (some (.nat 6))) .nil)) j
              = some q'
            → (mergeField a' k' p' q').2 = none
              ∧ pAt (mergeFields
                  (.cons exPortAttrs (.rleaf .tU16 none .mdefault .pdefault)
                    (.cons c8ItemsAttrs (.rleaf .tU16 none (.mfail "boom") .pdefault) .nil))
                  (.cons (.rleaf none) (.cons (.rleaf none) .nil))
                  (.cons (.rleaf (some (.nat 5))) (.cons (.rleaf (some (.nat 6))) .nil))).1 j
                = some (mergeField a' k' p' q').1)
        ∧ (∀ j, i < j → pAt (mergeFields
              (.cons exPortAttrs (.rleaf .tU16 none .mdefault .pdefault)
                (.cons c8ItemsAttrs (.rleaf .tU16 none (.mfail "boom") .pdefault) .nil))
              (.cons (.rleaf none) (.cons (.rleaf none) .nil))
              (.cons (.rleaf (some (.nat 5))) (.cons (.rleaf (some (.nat 6))) .nil))).1 j
            = pAt (.cons (.rleaf none) (.cons (.rleaf none) .nil)) j) := by
  have h := c8_first_error_stops exInner (emptyShape exInner) (fun _ => .error "bad") none
    ⟨"PORT", "port", "bad"⟩
    (.cons exPortAttrs (.rleaf .tU16 none .mdefault .pdefault)
      (.cons c8ItemsAttrs (.rleaf .tU16 none (.mfail "boom") .pdefault) .nil))
    (.cons (.rleaf none) (.cons (.rleaf none) .nil))
    (.cons (.rleaf (some (.nat 5))) (.cons (.rleaf (some (.nat 6))) .nil))
    ⟨"items", "boom"⟩
  exact ⟨h.1 rfl, h.2 rfl⟩

/-! ## Missing-property paths (C3) -/

/- Modelled from the spec (§4.1): the missing properties as *structured*
paths — "for every required (non-optional, non-nested) leaf field that is
absent, emit its path; for every nested field, recurse and prefix each
returned path with the field's name; optional leaf fields are never
reported missing"; nested optional fields report through the `Option`
instance. -/
mutual
def missingPathsSpec : Shape → PValue → List (List String)
  | .mk _ _ fs, .node ps => missingPathsSpecF fs ps
  | _, _ => []

def missingPathsSpecF : Fields → PFields → List (List String)
  | .cons a k rest, .cons p ps => missingPathsSpecK a k p ++ missingPathsSpecF rest ps
  | _, _ => []

def missingPathsSpecK (a : FieldAttrs) : FieldKind → PValue → List (List String)
  | .rleaf _ _ _ _, .rleaf v => if v.isNone then [[a.fieldName]] else []
  | .oleaf _ _ _ _, _ => []
  | .nested s, p => (missingPathsSpec s p).map (a.fieldName :: ·)
  | .nestedOpt _, .onode none => []
  | .nestedOpt s, .onode (some me) =>
    if isEmptyP me then [] else (missingPathsSpec s me).map (a.fieldName :: ·)
  | _, _ => []
end

/- Does a structured path resolve, through nested fields by field name, to
a required (non-optional, non-nested) leaf that is absent in the mirror?
A path naming an optional leaf or stopping at a nested field never
resolves. -/
mutual
def resolveReqAbsent : Shape → PValue → List String → Bool
  | .mk _ _ fs, .node ps, π => resolveReqAbsentF fs ps π
  | _, _, _ => false

def resolveReqAbsentF : Fields → PFields → List String → Bool
  | .cons a k rest, .cons p ps, π =>
    resolveReqAbsentK a k p π || resolveReqAbsentF rest ps π
  | _, _, _ => false

def resolveReqAbsentK (a : FieldAttrs) : FieldKind → PValue → List String → Bool
  | .rleaf _ _ _ _, .rleaf v, [n] => n == a.fieldName && v.isNone
  | .nested s, p, n :: m :: rest => n == a.fieldName && resolveReqAbsent s p (m :: rest)
  | .nestedOpt s, .onode (some me), n :: m :: rest =>
    n == a.fieldName && resolveReqAbsent s me (m :: rest)
  | _, _, _ => false
end

/-- Joining a non-trivial dotted path prepends `name.`. -/
theorem joinDots_cons (n : String) (π : List String) (h : π ≠ []) :
    joinDots (n :: π) = n ++ "." ++ joinDots π := by
  cases π with
  | nil => exact absurd rfl h
  | cons m rest => rfl

mutual
theorem spec_paths_ne_nil_shape : ∀ (s : Shape) (p : PValue) (π : List String),
    π ∈ missingPathsSpec s p → π ≠ []
  | .mk _ _ fs, .node ps, π, h => spec_paths_ne_nil_fields fs ps π (by simpa [missingPathsSpec] using h)
  | .mk _ _ _, .rleaf _, _, h => by simp [missingPathsSpec] at h
  | .mk _ _ _, .oleaf _, _, h => by simp [missingPathsSpec] at h
  | .mk _ _ _, .onode _, _, h => by simp [missingPathsSpec] at h

theorem spec_paths_ne_nil_fields : ∀ (fs : Fields) (ps : PFields) (π : List String),
    π ∈ missingPathsSpecF fs ps → π ≠ []
  | .cons a k rest, .cons p ps, π, h => by
    rcases List.mem_append.mp (by simpa [missingPathsSpecF] using h) with h1 | h2
    · exact spec_paths_ne_nil_kind a k p π h1
    · exact spec_paths_ne_nil_fields rest ps π h2
  | .nil, _, _, h => by simp [missingPathsSpecF] at h
  | .cons _ _ _, .nil, _, h => by simp [missingPathsSpecF] at h

theorem spec_paths_ne_nil_kind : ∀ (a : FieldAttrs) (k : FieldKind) (p : PValue)
    (π : List String), π ∈ missingPathsSpecK a k p → π ≠ []
  | a, .rleaf _ _ _ _, .rleaf v, π, h => by
    by_cases hv : v.isNone <;> simp [missingPathsSpecK, hv] at h
    · simp [h]
  | _, .rleaf _ _ _ _, .oleaf _, _, h => by simp [missingPathsSpecK] at h
  | _, .rleaf _ _ _ _, .node _, _, h => by simp [missingPathsSpecK] at h
  | _, .rleaf _ _ _ _, .onode _, _, h => by simp [missingPathsSpecK] at h
  | _, .oleaf _ _ _ _, _, _, h => by simp [missingPathsSpecK] at h
  | a, .nested s, p, π, h => by
    rcases List.mem_map.mp (by simpa [missingPathsSpecK] using h) with ⟨τ, _, rfl⟩
    simp
  | _, .nestedOpt _, .onode none, _, h => by simp [missingPathsSpecK] at h
  | a, .nestedOpt s, .onode (some me), π, h => by
    by_cases he : isEmptyP me = true
    · simp [missingPathsSpecK, he] at h
    · rcases List.mem_map.mp (by simpa [missingPathsSpecK, he] using h) with ⟨τ, _, rfl⟩
      simp
  | _, .nestedOpt _, .rleaf _, _, h => by simp [missingPathsSpecK] at h
  | _, .nestedOpt _, .oleaf _, _, h => by simp [missingPathsSpecK] at h
  | _, .nestedOpt _, .node _, _, h => by simp [missingPathsSpecK] at h
end

mutual
theorem missing_eq_spec_shape : ∀ (s : Shape) (p : PValue),
    listMissingShape s p = (missingPathsSpec s p).map joinDots
  | .mk _ _ fs, .node ps => by
    simpa [listMissingShape, missingPathsSpec] using missing_eq_spec_fields fs ps
  | .mk _ _ _, .rleaf _ => rfl
  | .mk _ _ _, .oleaf _ => rfl
  | .mk _ _ _, .onode _ => rfl

theorem missing_eq_spec_fields : ∀ (fs : Fields) (ps : PFields),
    listMissingFields fs ps = (missingPathsSpecF fs ps).map joinDots
  | .cons a k rest, .cons p ps => by
    simp [listMissingFields, missingPathsSpecF, missing_eq_spec_kind a k p,
      missing_eq_spec_fields rest ps]
  | .nil, _ => rfl
  | .cons _ _ _, .nil => rfl

theorem missing_eq_spec_kind : ∀ (a : FieldAttrs) (k : FieldKind) (p : PValue),
    missingField a k p = (missingPathsSpecK a k p).map joinDots
  | a, .rleaf _ _ _ _, .rleaf v => by
    by_cases hv : v.isNone <;> simp [missingField, missingPathsSpecK, hv, joinDots]
  | _, .rleaf _ _ _ _, .oleaf _ => rfl
  | _, .rleaf _ _ _ _, .node _ => rfl
  | _, .rleaf _ _ _ _, .onode _ => rfl
  | _, .oleaf _ _ _ _, _ => rfl
  | a, .nested s, p => by
    rw [missingField, missing_eq_spec_shape s p, missingPathsSpecK,
      List.map_map, List.map_map]
    refine List.map_congr_left (fun π hπ => ?_)
    have := spec_paths_ne_nil_shape s p π hπ
    simp [Function.comp, joinDots_cons a.fieldName π this]
  | _, .nestedOpt _, .onode none => rfl
  | a, .nestedOpt s, .onode (some me) => by
    by_cases he : isEmptyP me = true
    · simp [missingField, missingPathsSpecK, he]
    · have he' : isEmptyP me = false := by simpa using he
      rw [missingField, missingPathsSpecK, missing_eq_spec_shape s me]
      simp only [he', Bool.false_eq_true, if_false, List.map_map]
      refine List.map_congr_left (fun π hπ => ?_)
      have := spec_paths_ne_nil_shape s me π hπ
      simp [Function.comp, joinDots_cons a.fieldName π this]
  | _, .nestedOpt _, .rleaf _ => rfl
  | _, .nestedOpt _, .oleaf _ => rfl
  | _, .nestedOpt _, .node _ => rfl
end

mutual
theorem spec_paths_resolve_shape : ∀ (s : Shape) (p : PValue) (π : List String),
    π ∈ missingPathsSpec s p → resolveReqAbsent s p π = true
  | .mk _ _ fs, .node ps, π, h => by
    have := spec_paths_resolve_fields fs ps π (by simpa [missingPathsSpec] using h)
    simpa [resolveReqAbsent] using this
  | .mk _ _ _, .rleaf _, _, h => by simp [missingPathsSpec] at h
  | .mk _ _ _, .oleaf _, _, h => by simp [missingPathsSpec] at h
  | .mk _ _ _, .onode _, _, h => by simp [missingPathsSpec] at h

theorem spec_paths_resolve_fields : ∀ (fs : Fields) (ps : PFields) (π : List String),
    π ∈ missingPathsSpecF fs ps → resolveReqAbsentF fs ps π = true
  | .cons a k rest, .cons p ps, π, h => by
    rcases List.mem_append.mp (by simpa [missingPathsSpecF] using h) with h1 | h2
    · simp [resolveReqAbsentF, spec_paths_resolve_kind a k p π h1]
    · simp [resolveReqAbsentF, spec_paths_resolve_fields rest ps π h2]
  | .nil, _, _, h => by simp [missingPathsSpecF] at h
  | .cons _ _ _, .nil, _, h => by simp [missingPathsSpecF] at h

theorem spec_paths_resolve_kind : ∀ (a : FieldAttrs) (k : FieldKind) (p : PValue)
    (π : List String), π ∈ missingPathsSpecK a k p → resolveReqAbsentK a k p π = true
  | a, .rleaf _ _ _ _, .rleaf v, π, h => by
    by_cases hv : v.isNone <;> simp [missingPathsSpecK, hv] at h
    subst h
    simp [resolveReqAbsentK, hv]
  | _, .rleaf _ _ _ _, .oleaf _, _, h => by simp [missingPathsSpecK] at h
  | _, .rleaf _ _ _ _, .node _, _, h => by simp [missingPathsSpecK] at h
  | _, .rleaf _ _ _ _, .onode _, _, h => by simp [missingPathsSpecK] at h
  | _, .oleaf _ _ _ _, _, _, h => by simp [missingPathsSpecK] at h
  | a, .nested s, p, π, h => by
    rcases List.mem_map.mp (by simpa [missingPathsSpecK] using h) with ⟨τ, hτ, rfl⟩
    have hne := spec_paths_ne_nil_shape s p τ hτ
    have hres := spec_paths_resolve_shape s p τ hτ
    cases τ with
    | nil => exact absurd rfl hne
    | cons m rest => simp [resolveReqAbsentK, hres]
  | _, .nestedOpt _, .onode none, _, h => by simp [missingPathsSpecK] at h
  | a, .nestedOpt s, .onode (some me), π, h => by
    by_cases he : isEmptyP me = true
    · simp [missingPathsSpecK, he] at h
    · rcases List.mem_map.mp (by simpa [missingPathsSpecK, he] using h) with ⟨τ, hτ, rfl⟩
      have hne := spec_paths_ne_nil_shape s me τ hτ
      have hres := spec_paths_resolve_shape s me τ hτ
      cases τ with
      | nil => exact absurd rfl hne
      | cons m rest => simp [resolveReqAbsentK, hres]
  | _, .nestedOpt _, .rleaf _, _, h => by simp [missingPathsSpecK] at h
  | _, .nestedOpt _, .oleaf _, _, h => by simp [missingPathsSpecK] at h
  | _, .nestedOpt _, .node _, _, h => by simp [missingPathsSpecK] at h
end

/-- C3: `list_missing_properties` is exactly the dotted joins of the
structured spec paths, every such structured path resolves to a required
(non-optional, non-nested) leaf that is absent — so no reported path is an
optional field's path or a nested field's own path — and consequently every
reported string is the dotted full path of some required absent leaf. -/
theorem c3_missing_only_required_leaves (s : Shape) (p : PValue) :
    listMissingShape s p = (missingPathsSpec s p).map joinDots
    ∧ (∀ π ∈ missingPathsSpec s p, resolveReqAbsent s p π = true)
    ∧ (∀ q ∈ listMissingShape s p, ∃ π, q = joinDots π ∧ resolveReqAbsent s p π = true) := by
  refine ⟨missing_eq_spec_shape s p, fun π hπ => spec_paths_resolve_shape s p π hπ, ?_⟩
  intro q hq
  rw [missing_eq_spec_shape s p] at hq
  rcases List.mem_map.mp hq with ⟨π, hπ, rfl⟩
  exact ⟨π, rfl, spec_paths_resolve_shape s p π hπ⟩

/-! ## Per-leaf merge semantics (C1)

To state that merging acts on every leaf independently we address leaves by
index paths (`List Nat`: the field position at each nesting level) and
observe the present/absent state of a leaf with `leafStateS`.  A nested
optional mirror that is `None` is observed as its shape's all-absent
mirror. -/

/-- The observable state of one leaf in a mirror: the `Option<T>` of a
required leaf or the `Option<Option<T>>` of an optional leaf. -/
inductive LeafVal where
  | req (v : Option Value)
  | opt (v : Option (Option Value))

/-- Is this the state of an optional leaf? -/
def LeafVal.isOpt : LeafVal → Bool
  | .req _ => false
  | .opt _ => true

/-- Is the leaf present (outer option set)? -/
def LeafVal.present : LeafVal → Bool
  | .req v => v.isSome
  | .opt v => v.isSome

/-- The all-absent leaf state of the given optionality. -/
def absentOf (b : Bool) : LeafVal := if b then .opt none else .req none

/-- The default per-leaf merge rule: a present incoming state replaces the
current one, an absent incoming state leaves it untouched. -/
def combineLeaf (cur inc : LeafVal) : LeafVal := if inc.present then inc else cur

/-- `combineLeaf` lifted to possibly-invalid leaf addresses. -/
def combineO : Option LeafVal → Option LeafVal → Option LeafVal
  | some c, some i => some (combineLeaf c i)
  | _, _ => none

mutual
def leafStateS : Shape → PValue → List Nat → Option LeafVal
  | .mk _ _ fs, .node ps, i :: π => leafStateF fs ps i π
  | _, _, _ => none

def leafStateF : Fields → PFields → Nat → List Nat → Option LeafVal
  | .cons _ k _, .cons p _, 0, π => leafStateK k p π
  | .cons _ _ rest, .cons _ ps, Nat.succ i, π => leafStateF rest ps i π
  | _, _, _, _ => none

def leafStateK : FieldKind → PValue → List Nat → Option LeafVal
  | .rleaf _ _ _ _, .rleaf v, [] => some (.req v)
  | .oleaf _ _ _ _, .oleaf v, [] => some (.opt v)
  | .nested s, p, π => leafStateS s p π
  | .nestedOpt s, .onode none, π => leafStateS s (emptyShape s) π
  | .nestedOpt s, .onode (some p), π => leafStateS s p π
  | _, _, _ => none
end

/- The optionality of the leaf a path addresses, read off the shape alone
(`none` when the path addresses no leaf). -/
mutual
def kindAtS : Shape → List Nat → Option Bool
  | .mk _ _ fs, i :: π => kindAtF fs i π
  | _, _ => none

def kindAtF : Fields → Nat → List Nat → Option Bool
  | .cons _ k _, 0, π => kindAtK k π
  | .cons _ _ rest, Nat.succ i, π => kindAtF rest i π
  | .nil, _, _ => none

def kindAtK : FieldKind → List Nat → Option Bool
  | .rleaf _ _ _ _, [] => some false
  | .oleaf _ _ _ _, [] => some true
  | .nested s, π => kindAtS s π
  | .nestedOpt s, π => kindAtS s π
  | _, _ => none
end

/- Does every field of the shape (recursively) use the default merge
policy? -/
mutual
def allDefaultShape : Shape → Bool
  | .mk _ _ fs => allDefaultFields fs

def allDefaultFields : Fields → Bool
  | .nil => true
  | .cons _ k rest => allDefaultKind k && allDefaultFields rest

def allDefaultKind : FieldKind → Bool
  | .rleaf _ _ .mdefault _ => true
  | .rleaf _ _ _ _ => false
  | .oleaf _ _ .mdefault _ => true
  | .oleaf _ _ _ _ => false
  | .nested s => allDefaultShape s
  | .nestedOpt s => allDefaultShape s
end

/-- Folding a sequence of partial values into the loader state left to
right, starting from the empty mirror (the merge-accumulation a sequence of
`add_*` calls performs). -/
def foldMerge (s : Shape) (ps : List PValue) : PValue :=
  ps.foldl (fun acc p => (mergeShape s acc p).1) (emptyShape s)

/-- The state of a leaf after layering `xs` over `init`: the last present
state among `xs`, else `init` (the "value from the last source in which the
field was present"). -/
def lastPresentO (init : Option LeafVal) (xs : List (Option LeafVal)) : Option LeafVal :=
  match ((xs.filterMap id).filter LeafVal.present).getLast? with
  | some v => some v
  | none => init

mutual
theorem matches_empty_shape : ∀ s : Shape, matchesShape s (emptyShape s) = true
  | .mk _ _ fs => by simpa [emptyShape, matchesShape] using matches_empty_fields fs

theorem matches_empty_fields : ∀ fs : Fields, matchesFields fs (emptyFields fs) = true
  | .nil => rfl
  | .cons _ k rest => by
    simp [emptyFields, matchesFields, matches_empty_kind k, matches_empty_fields rest]

theorem matches_empty_kind : ∀ k : FieldKind, matchesField k (emptyField k) = true
  | .rleaf _ _ _ _ => rfl
  | .oleaf _ _ _ _ => rfl
  | .nested s => by simpa [emptyField, matchesField] using matches_empty_shape s
  | .nestedOpt _ => rfl
end

mutual
theorem leafState_kind_shape : ∀ (s : Shape) (x : PValue), matchesShape s x = true →
    ∀ π, (leafStateS s x π).map LeafVal.isOpt = kindAtS s π
  | .mk _ _ fs, .node ps, h, π => by
    cases π with
    | nil => rfl
    | cons i π' =>
      simpa [leafStateS, kindAtS] using
        leafState_kind_fields fs ps (by simpa [matchesShape] using h) i π'
  | .mk _ _ _, .rleaf _, h, _ => by simp [matchesShape] at h
  | .mk _ _ _, .oleaf _, h, _ => by simp [matchesShape] at h
  | .mk _ _ _, .onode _, h, _ => by simp [matchesShape] at h

theorem leafState_kind_fields : ∀ (fs : Fields) (ps : PFields), matchesFields fs ps = true →
    ∀ i π, (leafStateF fs ps i π).map LeafVal.isOpt = kindAtF fs i π
  | .cons _ k rest, .cons p ps, h, i, π => by
    have hk : matchesField k p = true := by
      have := h; simp [matchesFields] at this; exact this.1
    have hr : matchesFields rest ps = true := by
      have := h; simp [matchesFields] at this; exact this.2
    cases i with
    | zero => simpa [leafStateF, kindAtF] using leafState_kind_kind k p hk π
    | succ i' => simpa [leafStateF, kindAtF] using leafState_kind_fields rest ps hr i' π
  | .nil, .nil, _, i, π => by cases i <;> rfl
  | .nil, .cons _ _, h, _, _ => by simp [matchesFields] at h
  | .cons _ _ _, .nil, h, _, _ => by simp [matchesFields] at h

theorem leafState_kind_kind : ∀ (k : FieldKind) (p : PValue), matchesField k p = true →
    ∀ π, (leafStateK k p π).map LeafVal.isOpt = kindAtK k π
  | .rleaf _ _ _ _, .rleaf _, _, π => by
    cases π with
    | nil => rfl
    | cons _ _ => rfl
  | .rleaf _ _ _ _, .oleaf _, h, _ => by simp [matchesField] at h
  | .rleaf _ _ _ _, .node _, h, _ => by simp [matchesField] at h
  | .rleaf _ _ _ _, .onode _, h, _ => by simp [matchesField] at h
  | .oleaf _ _ _ _, .oleaf _, _, π => by
    cases π with
    | nil => rfl
    | cons _ _ => rfl
  | .oleaf _ _ _ _, .rleaf _, h, _ => by simp [matchesField] at h
  | .oleaf _ _ _ _, .node _, h, _ => by simp [matchesField] at h
  | .oleaf _ _ _ _, .onode _, h, _ => by simp [matchesField] at h
  | .nested s, p, h, π => by
    simpa [leafStateK, kindAtK] using
      leafState_kind_shape s p (by simpa [matchesField] using h) π
  | .nestedOpt s, .onode none, _, π => by
    simpa [leafStateK, kindAtK] using
      leafState_kind_shape s (emptyShape s) (matches_empty_shape s) π
  | .nestedOpt s, .onode (some p), h, π => by
    simpa [leafStateK, kindAtK] using
      leafState_kind_shape s p (by simpa [matchesField] using h) π
  | .nestedOpt _, .rleaf _, h, _ => by simp [matchesField] at h
  | .nestedOpt _, .oleaf _, h, _ => by simp [matchesField] at h
  | .nestedOpt _, .node _, h, _ => by simp [matchesField] at h
end

mutual
theorem leafState_empty_shape : ∀ (s : Shape) (π : List Nat),
    leafStateS s (emptyShape s) π = (kindAtS s π).map absentOf
  | .mk _ _ fs, π => by
    cases π with
    | nil => rfl
    | cons i π' =>
      simpa [emptyShape, leafStateS, kindAtS] using leafState_empty_fields fs i π'

theorem leafState_empty_fields : ∀ (fs : Fields) (i : Nat) (π : List Nat),
    leafStateF fs (emptyFields fs) i π = (kindAtF fs i π).map absentOf
  | .cons _ k rest, i, π => by
    cases i with
    | zero => simpa [emptyFields, leafStateF, kindAtF] using leafState_empty_kind k π
    | succ i' => simpa [emptyFields, leafStateF, kindAtF] using leafState_empty_fields rest i' π
  | .nil, i, π => by cases i <;> rfl

theorem leafState_empty_kind : ∀ (k : FieldKind) (π : List Nat),
    leafStateK k (emptyField k) π = (kindAtK k π).map absentOf
  | .rleaf _ _ _ _, π => by
    cases π with
    | nil => rfl
    | cons _ _ => rfl
  | .oleaf _ _ _ _, π => by
    cases π with
    | nil => rfl
    | cons _ _ => rfl
  | .nested s, π => by
    simpa [emptyField, leafStateK, kindAtK] using leafState_empty_shape s π
  | .nestedOpt s, π => by
    simpa [emptyField, leafStateK, kindAtK] using leafState_empty_shape s π
end

mutual
theorem merge_matches_shape : ∀ (s : Shape) (x y : PValue), matchesShape s x = true →
    matchesShape s y = true → matchesShape s (mergeShape s x y).1 = true
  | .mk _ _ fs, .node ps, .node qs, hx, hy => by
    simpa [mergeShape, matchesShape] using
      merge_matches_fields fs ps qs (by simpa [matchesShape] using hx)
        (by simpa [matchesShape] using hy)
  | .mk _ _ _, .node _, .rleaf _, _, hy => by simp [matchesShape] at hy
  | .mk _ _ _, .node _, .oleaf _, _, hy => by simp [matchesShape] at hy
  | .mk _ _ _, .node _, .onode _, _, hy => by simp [matchesShape] at hy
  | .mk _ _ _, .rleaf _, _, hx, _ => by simp [matchesShape] at hx
  | .mk _ _ _, .oleaf _, _, hx, _ => by simp [matchesShape] at hx
  | .mk _ _ _, .onode _, _, hx, _ => by simp [matchesShape] at hx

theorem merge_matches_fields : ∀ (fs : Fields) (ps qs : PFields), matchesFields fs ps = true →
    matchesFields fs qs = true → matchesFields fs (mergeFields fs ps qs).1 = true
  | .cons a k rest, .cons p ps, .cons q qs, hp, hq => by
    have hkp : matchesField k p = true := by
      have := hp; simp [matchesFields] at this; exact this.1
    have hpr : matchesFields rest ps = true := by
      have := hp; simp [matchesFields] at this; exact this.2
    have hkq : matchesField k q = true := by
      have := hq; simp [matchesFields] at this; exact this.1
    have hqr : matchesFields rest qs = true := by
      have := hq; simp [matchesFields] at this; exact this.2
    cases he : (mergeField a k p q).2 with
    | some e =>
      simp [mergeFields, he, matchesFields, merge_matches_kind a k p q hkp hkq, hpr]
    | none =>
      simp [mergeFields, he, matchesFields, merge_matches_kind a k p q hkp hkq,
        merge_matches_fields rest ps qs hpr hqr]
  | .nil, .nil, .nil, _, _ => rfl
  | .nil, .cons _ _, _, hp, _ => by simp [matchesFields] at hp
  | .cons _ _ _, .nil, _, hp, _ => by simp [matchesFields] at hp
  | .nil, .nil, .cons _ _, _, hq => by simp [matchesFields] at hq
  | .cons _ _ _, .cons _ _, .nil, _, hq => by simp [matchesFields] at hq

theorem merge_matches_kind : ∀ (a : FieldAttrs) (k : FieldKind) (p q : PValue),
    matchesField k p = true → matchesField k q = true →
    matchesField k (mergeField a k p q).1 = true
  | a, .rleaf ty d mp pp, .rleaf l, .rleaf r, _, _ => by
    cases mp <;> simp [mergeField, matchesField]
  | _, .rleaf _ _ _ _, .rleaf _, .oleaf _, _, hq => by simp [matchesField] at hq
  | _, .rleaf _ _ _ _, .rleaf _, .node _, _, hq => by simp [matchesField] at hq
  | _, .rleaf _ _ _ _, .rleaf _, .onode _, _, hq => by simp [matchesField] at hq
  | _, .rleaf _ _ _ _, .oleaf _, _, hp, _ => by simp [matchesField] at hp
  | _, .rleaf _ _ _ _, .node _, _, hp, _ => by simp [matchesField] at hp
  | _, .rleaf _ _ _ _, .onode _, _, hp, _ => by simp [matchesField] at hp
  | a, .oleaf ty d mp pp, .oleaf l, .oleaf r, _, _ => by
    cases mp <;> simp [mergeField, matchesField]
  | _, .oleaf _ _ _ _, .oleaf _, .rleaf _, _, hq => by simp [matchesField] at hq
  | _, .oleaf _ _ _ _, .oleaf _, .node _, _, hq => by simp [matchesField] at hq
  | _, .oleaf _ _ _ _, .oleaf _, .onode _, _, hq => by simp [matchesField] at hq
  | _, .oleaf _ _ _ _, .rleaf _, _, hp, _ => by simp [matchesField] at hp
  | _, .oleaf _ _ _ _, .node _, _, hp, _ => by simp [matchesField] at hp
  | _, .oleaf _ _ _ _, .onode _, _, hp, _ => by simp [matchesField] at hp
  | a, .nested s, p, q, hp, hq => by
    simpa [mergeField, matchesField] using
      merge_matches_shape s p q (by simpa [matchesField] using hp)
        (by simpa [matchesField] using hq)
  | a, .nestedOpt s, .onode none, .onode (some o), _, hq => by
    simpa [mergeField, matchesField] using hq
  | a, .nestedOpt s, .onode (some me), .onode (some o), hp, hq => by
    simpa [mergeField, matchesField] using
      merge_matches_shape s me o (by simpa [matchesField] using hp)
        (by simpa [matchesField] using hq)
  | a, .nestedOpt s, .onode l, .onode none, hp, _ => by
    cases l with
    | none => simp [mergeField, matchesField]
    | some me => simpa [mergeField, matchesField] using hp
  | _, .nestedOpt _, .onode _, .rleaf _, _, hq => by simp [matchesField] at hq
  | _, .nestedOpt _, .onode _, .oleaf _, _, hq => by simp [matchesField] at hq
  | _, .nestedOpt _, .onode _, .node _, _, hq => by simp [matchesField] at hq
  | _, .nestedOpt _, .rleaf _, _, hp, _ => by simp [matchesField] at hp
  | _, .nestedOpt _, .oleaf _, _, hp, _ => by simp [matchesField] at hp
  | _, .nestedOpt _, .node _, _, hp, _ => by simp [matchesField] at hp
end

mutual
theorem merge_err_shape : ∀ (s : Shape) (x y : PValue), allDefaultShape s = true →
    (mergeShape s x y).2 = none
  | .mk _ _ fs, x, y, hd => by
    cases x with
    | node ps =>
      cases y with
      | node qs =>
        simpa [mergeShape] using
          merge_err_fields fs ps qs (by simpa [allDefaultShape] using hd)
      | rleaf _ => rfl
      | oleaf _ => rfl
      | onode _ => rfl
    | rleaf _ => rfl
    | oleaf _ => rfl
    | onode _ => rfl

theorem merge_err_fields : ∀ (fs : Fields) (ps qs : PFields), allDefaultFields fs = true →
    (mergeFields fs ps qs).2 = none
  | .cons a k rest, .cons p ps, .cons q qs, hd => by
    have hdk : allDefaultKind k = true := by
      have := hd; simp [allDefaultFields] at this; exact this.1
    have hdr : allDefaultFields rest = true := by
      have := hd; simp [allDefaultFields] at this; exact this.2
    simp [mergeFields, merge_err_kind a k p q hdk, merge_err_fields rest ps qs hdr]
  | .nil, _, _, _ => rfl
  | .cons _ _ _, .nil, _, _ => rfl
  | .cons _ _ _, .cons _ _, .nil, _ => rfl

theorem merge_err_kind : ∀ (a : FieldAttrs) (k : FieldKind) (p q : PValue),
    allDefaultKind k = true → (mergeField a k p q).2 = none
  | a, .rleaf ty d mp pp, p, q, hd => by
    have hmp : mp = .mdefault := by
      cases mp <;> first | rfl | simp [allDefaultKind] at hd
    subst hmp
    cases p <;> cases q <;> rfl
  | a, .oleaf ty d mp pp, p, q, hd => by
    have hmp : mp = .mdefault := by
      cases mp <;> first | rfl | simp [allDefaultKind] at hd
    subst hmp
    cases p <;> cases q <;> rfl
  | a, .nested s, p, q, hd => by
    simp [mergeField, merge_err_shape s p q (by simpa [allDefaultKind] using hd)]
  | a, .nestedOpt s, p, q, hd => by
    have hds : allDefaultShape s = true := by simpa [allDefaultKind] using hd
    cases p with
    | onode v =>
      cases v with
      | none =>
        cases q with
        | onode w => cases w <;> rfl
        | rleaf _ => rfl
        | oleaf _ => rfl
        | node _ => rfl
      | some me =>
        cases q with
        | onode w =>
          cases w with
          | none => rfl
          | some o => simp [mergeField, merge_err_shape s me o hds]
        | rleaf _ => rfl
        | oleaf _ => rfl
        | node _ => rfl
    | rleaf _ => rfl
    | oleaf _ => rfl
    | node _ => rfl
end

theorem absentOf_not_present (b : Bool) : (absentOf b).present = false := by
  cases b <;> rfl

theorem present_false_eq (v : LeafVal) (h : v.present = false) : v = absentOf v.isOpt := by
  cases v with
  | req o => cases o with
    | none => rfl
    | some x => simp [LeafVal.present] at h
  | opt o => cases o with
    | none => rfl
    | some x => simp [LeafVal.present] at h

theorem combineLeaf_self (x : LeafVal) : combineLeaf x x = x := by
  unfold combineLeaf; split <;> rfl

mutual
theorem mergeLeaf_shape : ∀ (s : Shape) (x y : PValue) (π : List Nat),
    allDefaultShape s = true → matchesShape s x = true → matchesShape s y = true →
    leafStateS s (mergeShape s x y).1 π = combineO (leafStateS s x π) (leafStateS s y π)
  | .mk _ _ fs, .node ps, .node qs, π, hd, hx, hy => by
    cases π with
    | nil => simp [mergeShape, leafStateS, combineO]
    | cons i π' =>
      have := mergeLeaf_fields fs ps qs i π' (by simpa [allDefaultShape] using hd)
        (by simpa [matchesShape] using hx) (by simpa [matchesShape] using hy)
      simpa [mergeShape, leafStateS] using this
  | .mk _ _ _, .node _, .rleaf _, _, _, _, hy => by simp [matchesShape] at hy
  | .mk _ _ _, .node _, .oleaf _, _, _, _, hy => by simp [matchesShape] at hy
  | .mk _ _ _, .node _, .onode _, _, _, _, hy => by simp [matchesShape] at hy
  | .mk _ _ _, .rleaf _, _, _, _, hx, _ => by simp [matchesShape] at hx
  | .mk _ _ _, .oleaf _, _, _, _, hx, _ => by simp [matchesShape] at hx
  | .mk _ _ _, .onode _, _, _, _, hx, _ => by simp [matchesShape] at hx

theorem mergeLeaf_fields : ∀ (fs : Fields) (ps qs : PFields) (i : Nat) (π : List Nat),
    allDefaultFields fs = true → matchesFields fs ps = true → matchesFields fs qs = true →
    leafStateF fs (mergeFields fs ps qs).1 i π
      = combineO (leafStateF fs ps i π) (leafStateF fs qs i π)
  | .cons a k rest, .cons p ps, .cons q qs, i, π, hd, hp, hq => by
    have hdk : allDefaultKind k = true := by
      have := hd; simp [allDefaultFields] at this; exact this.1
    have hdr : allDefaultFields rest = true := by
      have := hd; simp [allDefaultFields] at this; exact this.2
    have hkp : matchesField k p = true := by
      have := hp; simp [matchesFields] at this; exact this.1
    have hpr : matchesFields rest ps = true := by
      have := hp; simp [matchesFields] at this; exact this.2
    have hkq : matchesField k q = true := by
      have := hq; simp [matchesFields] at this; exact this.1
    have hqr : matchesFields rest qs = true := by
      have := hq; simp [matchesFields] at this; exact this.2
    have he : (mergeField a k p q).2 = none := merge_err_kind a k p q hdk
    cases i with
    | zero =>
      have := mergeLeaf_kind a k p q π hdk hkp hkq
      simpa [mergeFields, he, leafStateF] using this
    | succ i' =>
      have := mergeLeaf_fields rest ps qs i' π hdr hpr hqr
      simpa [mergeFields, he, leafStateF] using this
  | .nil, .nil, .nil, i, π, _, _, _ => by cases i <;> simp [mergeFields, leafStateF, combineO]
  | .nil, .cons _ _, _, _, _, _, hp, _ => by simp [matchesFields] at hp
  | .cons _ _ _, .nil, _, _, _, _, hp, _ => by simp [matchesFields] at hp
  | .nil, .nil, .cons _ _, _, _, _, _, hq => by simp [matchesFields] at hq
  | .cons _ _ _, .cons _ _, .nil, _, _, _, _, hq => by simp [matchesFields] at hq

theorem mergeLeaf_kind : ∀ (a : FieldAttrs) (k : FieldKind) (p q : PValue) (π : List Nat),
    allDefaultKind k = true → matchesField k p = true → matchesField k q = true →
    leafStateK k (mergeField a k p q).1 π = combineO (leafStateK k p π) (leafStateK k q π)
  | a, .rleaf ty d mp pp, .rleaf l, .rleaf r, π, hd, _, _ => by
    have hmp : mp = .mdefault := by
      cases mp <;> first | rfl | simp [allDefaultKind] at hd
    subst hmp
    cases π with
    | nil =>
      cases r <;>
        simp [mergeField, mergeFlat, leafStateK, combineO, combineLeaf, LeafVal.present]
    | cons i π' => simp [mergeField, leafStateK, combineO]
  | _, .rleaf _ _ _ _, .rleaf _, .oleaf _, _, _, _, hq => by simp [matchesField] at hq
  | _, .rleaf _ _ _ _, .rleaf _, .node _, _, _, _, hq => by simp [matchesField] at hq
  | _, .rleaf _ _ _ _, .rleaf _, .onode _, _, _, _, hq => by simp [matchesField] at hq
  | _, .rleaf _ _ _ _, .oleaf _, _, _, _, hp, _ => by simp [matchesField] at hp
  | _, .rleaf _ _ _ _, .node _, _, _, _, hp, _ => by simp [matchesField] at hp
  | _, .rleaf _ _ _ _, .onode _, _, _, _, hp, _ => by simp [matchesField] at hp
  | a, .oleaf ty d mp pp, .oleaf l, .oleaf r, π, hd, _, _ => by
    have hmp : mp = .mdefault := by
      cases mp <;> first | rfl | simp [allDefaultKind] at hd
    subst hmp
    cases π with
    | nil =>
      cases r <;>
        simp [mergeField, mergeFlat, leafStateK, combineO, combineLeaf, LeafVal.present]
    | cons i π' => simp [mergeField, leafStateK, combineO]
  | _, .oleaf _ _ _ _, .oleaf _, .rleaf _, _, _, _, hq => by simp [matchesField] at hq
  | _, .oleaf _ _ _ _, .oleaf _, .node _, _, _, _, hq => by simp [matchesField] at hq
  | _, .oleaf _ _ _ _, .oleaf _, .onode _, _, _, _, hq => by simp [matchesField] at hq
  | _, .oleaf _ _ _ _, .rleaf _, _, _, _, hp, _ => by simp [matchesField] at hp
  | _, .oleaf _ _ _ _, .node _, _, _, _, hp, _ => by simp [matchesField] at hp
  | _, .oleaf _ _ _ _, .onode _, _, _, _, hp, _ => by simp [matchesField] at hp
  | a, .nested s, p, q, π, hd, hp, hq => by
    have := mergeLeaf_shape s p q π (by simpa [allDefaultKind] using hd)
      (by simpa [matchesField] using hp) (by simpa [matchesField] using hq)
    simpa [mergeField, leafStateK] using this
  | a, .nestedOpt s, .onode none, .onode none, π, hd, _, _ => by
    show leafStateS s (emptyShape s) π
      = combineO (leafStateS s (emptyShape s) π) (leafStateS s (emptyShape s) π)
    rw [leafState_empty_shape s π]
    cases kindAtS s π with
    | none => rfl
    | some b => simp [combineO, combineLeaf_self]
  | a, .nestedOpt s, .onode none, .onode (some o), π, hd, _, hq => by
    have hmo : matchesShape s o = true := by simpa [matchesField] using hq
    have hk := leafState_kind_shape s o hmo π
    show leafStateS s o π
      = combineO (leafStateS s (emptyShape s) π) (leafStateS s o π)
    rw [leafState_empty_shape s π]
    cases ho : leafStateS s o π with
    | none =>
      have hkn : kindAtS s π = none := by rw [← hk, ho]; rfl
      rw [hkn]; rfl
    | some v =>
      have hks : kindAtS s π = some v.isOpt := by rw [← hk, ho]; rfl
      rw [hks]
      by_cases hpres : v.present = true
      · simp [combineO, combineLeaf, hpres]
      · have hv := present_false_eq v (by simpa using hpres)
        simp [combineO, combineLeaf, hpres, ← hv]
  | a, .nestedOpt s, .onode (some me), .onode none, π, hd, hp, _ => by
    have hmm : matchesShape s me = true := by simpa [matchesField] using hp
    have hk := leafState_kind_shape s me hmm π
    show leafStateS s me π
      = combineO (leafStateS s me π) (leafStateS s (emptyShape s) π)
    rw [leafState_empty_shape s π]
    cases hme : leafStateS s me π with
    | none =>
      have hkn : kindAtS s π = none := by rw [← hk, hme]; rfl
      rw [hkn]; rfl
    | some c =>
      have hks : kindAtS s π = some c.isOpt := by rw [← hk, hme]; rfl
      rw [hks]
      simp [combineO, combineLeaf, absentOf_not_present]
  | a, .nestedOpt s, .onode (some me), .onode (some o), π, hd, hp, hq => by
    have := mergeLeaf_shape s me o π (by simpa [allDefaultKind] using hd)
      (by simpa [matchesField] using hp) (by simpa [matchesField] using hq)
    simpa [mergeField, leafStateK] using this
  | _, .nestedOpt _, .onode _, .rleaf _, _, _, _, hq => by simp [matchesField] at hq
  | _, .nestedOpt _, .onode _, .oleaf _, _, _, _, hq => by simp [matchesField] at hq
  | _, .nestedOpt _, .onode _, .node _, _, _, _, hq => by simp [matchesField] at hq
  | _, .nestedOpt _, .rleaf _, _, _, _, hp, _ => by simp [matchesField] at hp
  | _, .nestedOpt _, .oleaf _, _, _, _, hp, _ => by simp [matchesField] at hp
  | _, .nestedOpt _, .node _, _, _, _, hp, _ => by simp [matchesField] at hp
end

theorem getLast?_cons_eq {α : Type} (x : α) (L : List α) :
    (x :: L).getLast? =
      (match L.getLast? with
       | some w => some w
       | none => some x) := by
  cases L with
  | nil => rfl
  | cons y ys =>
    rw [List.getLast?_cons_cons]
    have hne : (y :: ys) ≠ ([] : List α) := by simp
    have : ((y :: ys).getLast?).isSome := List.getLast?_isSome.mpr hne
    obtain ⟨w, hw⟩ := Option.isSome_iff_exists.mp this
    rw [hw]

theorem leafState_isSome (s : Shape) (x : PValue) (π : List Nat)
    (h : matchesShape s x = true) :
    (leafStateS s x π).isSome = (kindAtS s π).isSome := by
  rw [← leafState_kind_shape s x h π]
  cases leafStateS s x π <;> rfl

theorem lastPresentO_step (a b : Option LeafVal) (l : List (Option LeafVal))
    (h : a.isSome = b.isSome) :
    lastPresentO (combineO a b) l = lastPresentO a (b :: l) := by
  cases a with
  | none =>
    cases b with
    | none => simp [lastPresentO, combineO, List.filterMap_cons]
    | some _ => simp at h
  | some c =>
    cases b with
    | none => simp at h
    | some i =>
      have h1 : (some i :: l).filterMap id = i :: l.filterMap id := by simp
      by_cases hp : i.present = true
      · have h2 : (i :: l.filterMap id).filter LeafVal.present
            = i :: (l.filterMap id).filter LeafVal.present :=
          List.filter_cons_of_pos (by simpa using hp)
        unfold lastPresentO
        rw [h1, h2, getLast?_cons_eq]
        cases hL : ((l.filterMap id).filter LeafVal.present).getLast? with
        | some w => simp
        | none => simp [combineO, combineLeaf, hp]
      · have hp' : LeafVal.present i = false := by simpa using hp
        have h2 : (i :: l.filterMap id).filter LeafVal.present
            = (l.filterMap id).filter LeafVal.present :=
          List.filter_cons_of_neg (by simp [hp'])
        unfold lastPresentO
        rw [h1, h2]
        cases hL : ((l.filterMap id).filter LeafVal.present).getLast? with
        | some w => simp
        | none => simp [combineO, combineLeaf, hp']

theorem foldMerge_aux (s : Shape) (π : List Nat) (hd : allDefaultShape s = true) :
    ∀ (ps : List PValue) (acc : PValue), matchesShape s acc = true →
      (∀ p ∈ ps, matchesShape s p = true) →
      leafStateS s (ps.foldl (fun a p => (mergeShape s a p).1) acc) π
        = lastPresentO (leafStateS s acc π) (ps.map (fun p => leafStateS s p π))
  | [], acc, hacc, _ => by simp [lastPresentO]
  | p :: ps, acc, hacc, hps => by
    have hp : matchesShape s p = true := hps p (List.mem_cons_self p ps)
    have hrest : ∀ x ∈ ps, matchesShape s x = true :=
      fun x hx => hps x (List.mem_cons_of_mem p hx)
    have hacc' := merge_matches_shape s acc p hacc hp
    have IH := foldMerge_aux s π hd ps (mergeShape s acc p).1 hacc' hrest
    rw [List.foldl_cons, IH, mergeLeaf_shape s acc p π hd hacc hp, List.map_cons]
    exact lastPresentO_step _ _ _
      (by rw [leafState_isSome s acc π hacc, leafState_isSome s p π hp])

/-- C1: with the default merge policies, a single merge updates every leaf
independently by the replace-if-present rule (`combineLeaf`), and folding a
sequence of partial values left-to-right from the empty mirror gives every
leaf the state of the last source in which it was present (else the
all-absent initial state). -/
theorem c1_default_merge_last_wins (s : Shape) (ps : List PValue) (π : List Nat)
    (hd : allDefaultShape s = true) (hm : ∀ p ∈ ps, matchesShape s p = true) :
    (∀ x y, matchesShape s x = true → matchesShape s y = true →
      leafStateS s (mergeShape s x y).1 π = combineO (leafStateS s x π) (leafStateS s y π))
    ∧ leafStateS s (foldMerge s ps) π
        = lastPresentO (leafStateS s (emptyShape s) π)
            (ps.map (fun p => leafStateS s p π)) :=
  ⟨fun x y hx hy => mergeLeaf_shape s x y π hd hx hy,
   foldMerge_aux s π hd ps (emptyShape s) (matches_empty_shape s) hm⟩

/-- Source A of spec scenario 1: `port=3000`. -/
def c1pA : PValue := .node (.cons (.rleaf (some (.nat 3000))) .nil)

/-- Source B of spec scenario 1: `port=3001`. -/
def c1pB : PValue := .node (.cons (.rleaf (some (.nat 3001))) .nil)

/-- Witness for C1 at the shape `{port: u16}` with sources
`[port=3000, port=3001]`: the folded state holds `3001`, the value of the
last source in which `port` was present. -/
theorem c1_witness :
    leafStateS exInner (foldMerge exInner [c1pA, c1pB]) [0]
      = some (.req (some (.nat 3001))) := by
  have hm : ∀ p ∈ [c1pA, c1pB], matchesShape exInner p = true := by
    intro p hp
    rcases List.mem_cons.mp hp with rfl | hp
    · rfl
    · rcases List.mem_cons.mp hp with rfl | hp
      · rfl
      · simp at hp
  have h := (c1_default_merge_last_wins exInner [c1pA, c1pB] [0] rfl hm).2
  rw [h]
  rfl

end Metre
